import Mathlib

/-!
Faythe: retrying etcd client and autoscale manager

A shallow embedding of `pkg/common/etcd.go` (the retrying KV/lease wrappers),
`pkg/autoscaler/manager.go` (the per-node manager of scaler workers),
`pkg/model/scaler.go` (rule validation) and the supervisor goroutine of
`cmd/faythe/main.go`, followed by the properties established about them.
-/

namespace Faythe

/-! ## Errors seen by the etcd client -/

/-- The gRPC status codes of `google.golang.org/grpc/codes`. -/
inductive Code
  | OK | Canceled | Unknown | InvalidArgument | DeadlineExceeded | NotFound
  | AlreadyExists | PermissionDenied | ResourceExhausted | FailedPrecondition
  | Aborted | OutOfRange | Unimplemented | Internal | Unavailable | DataLoss
  | Unauthenticated
  deriving DecidableEq, Repr

/-- The Go `error` values the client tells apart. The first two are the
sentinels of package `context`, the next four sentinels of etcd's `rpctypes`
(plain `EtcdError` values, which carry no gRPC status), `status` is an error
that carries a gRPC status with the given code and whose `Error()` text is
`text`, and `other` is any remaining error with its text. -/
inductive GoError
  | ctxDeadlineExceeded
  | ctxCanceled
  | ErrTimeout
  | ErrTimeoutDueToLeaderFail
  | ErrNoLeader
  | ErrPermissionDenied
  | status (code : Code) (text : String)
  | other (text : String)
  deriving DecidableEq, Repr

/-- The text of `err.Error()`. -/
def GoError.Error : GoError → String
  | .ctxDeadlineExceeded => "context deadline exceeded"
  | .ctxCanceled => "context canceled"
  | .ErrTimeout => "etcdserver: request timed out"
  | .ErrTimeoutDueToLeaderFail =>
      "etcdserver: request timed out, possibly due to previous leader failure"
  | .ErrNoLeader => "etcdserver: no leader"
  | .ErrPermissionDenied => "etcdserver: permission denied"
  | .status _ text => text
  | .other text => text

/-- The function `status.FromError` of grpc-go on a non-nil error: the code of
the status and whether the error carries one. An error without a status is
reported as `Unknown` with `ok = false`. -/
def statusFromError : GoError → Code × Bool
  | .status code _ => (code, true)
  | _ => (Code.Unknown, false)

/-- The function `strings.Contains`. -/
def stringsContains (s substr : String) : Bool :=
  decide (substr.data <:+: s.data)

/-- The function `isServerCtxTimeout` (etcd.go:268). `none` is the nil error. -/
def isServerCtxTimeout : Option GoError → Bool
  | none => false
  | some err =>
    let (code, ok) := statusFromError err
    if !ok then false
    else code = Code.DeadlineExceeded && stringsContains err.Error "context deadline exceeded"

/-- The function `isClientTimeout` (etcd.go:282). -/
def isClientTimeout : Option GoError → Bool
  | none => false
  | some err =>
    if err = GoError.ctxDeadlineExceeded then true
    else
      let (code, ok) := statusFromError err
      if !ok then false
      else code = Code.DeadlineExceeded

/-- The function `isCanceled` (etcd.go:297). -/
def isCanceled : Option GoError → Bool
  | none => false
  | some err =>
    if err = GoError.ctxCanceled then true
    else
      let (code, ok) := statusFromError err
      if !ok then false
      else code = Code.Canceled

/-- The function `Etcd.isRetryNeeded` (etcd.go:254); the logging is left out. -/
def isRetryNeeded (err : Option GoError) : Bool :=
  if isClientTimeout err || isServerCtxTimeout err || err = some GoError.ErrTimeout
      || err = some GoError.ErrTimeoutDueToLeaderFail then true
  else false

/-! ## The retrying wrappers -/

/-- The constant `DefaultEtcdRetryCount` of package `common` (etcd.go:35). -/
def DefaultEtcdRetryCount : Nat := 3

/-- What one invocation of the underlying etcd operation returns: the Go pair
`(result, err)`. -/
structure Outcome (R : Type) where
  result : Option R
  err : Option GoError
  deriving DecidableEq, Repr

/-- A successful outcome. -/
def Outcome.ok {R : Type} (r : R) : Outcome R := ⟨some r, none⟩

/-- A failed outcome. -/
def Outcome.fail {R : Type} (e : GoError) : Outcome R := ⟨none, some e⟩

/-- What a `Do*` call has done when it returns: the returned pair, how often the
underlying operation was invoked, how often the call slept for
`DefaultEtcdtIntervalBetweenRetries`, and the values it sent on `ErrCh`. -/
structure Call (R : Type) where
  result : Option R
  err : Option GoError
  attempts : Nat
  sleeps : Nat
  emitted : List GoError
  deriving DecidableEq, Repr

/-- The loop `for i := 0; i < DefaultEtcdRetryCount; i++` shared by the six
wrappers, entered at index `i` with `remaining = DefaultEtcdRetryCount - i`
iterations left. `op i` is the outcome of the invocation made in iteration `i`.
A retryable error sleeps and continues, anything else breaks. -/
def retryLoop {R : Type} (op : Nat → Outcome R) :
    (remaining : Nat) → (i : Nat) → Call R → Call R
  | 0, _, c => c
  | remaining + 1, i, c =>
    let o := op i
    let c1 : Call R := { c with result := o.result, err := o.err, attempts := c.attempts + 1 }
    if isRetryNeeded o.err then
      retryLoop op remaining (i + 1) { c1 with sleeps := c1.sleeps + 1 }
    else c1

/-- The body common to `DoGet`, `DoPut`, `DoDelete`, `DoGrant`,
`DoKeepAliveOnce` and `DoRevoke`: the retry loop from `i = 0` with nil
`result` and `err`, then `if err != nil { e.ErrCh <- err }`. -/
def doRetry {R : Type} (op : Nat → Outcome R) : Call R :=
  let c := retryLoop op DefaultEtcdRetryCount 0 ⟨none, none, 0, 0, []⟩
  match c.err with
  | some err => { c with emitted := c.emitted ++ [err] }
  | none => c

/-- The function `Etcd.DoGet` (etcd.go:82) over the outcomes of `e.Get`. -/
def DoGet {R : Type} (get : Nat → Outcome R) : Call R := doRetry get

/-- The function `Etcd.DoPut` (etcd.go:107) over the outcomes of `e.Put`. -/
def DoPut {R : Type} (put : Nat → Outcome R) : Call R := doRetry put

/-- The function `Etcd.DoDelete` (etcd.go:132) over the outcomes of `e.Delete`. -/
def DoDelete {R : Type} (delete : Nat → Outcome R) : Call R := doRetry delete

/-- The function `Etcd.DoGrant` (etcd.go:156) over the outcomes of `e.Grant`. -/
def DoGrant {R : Type} (grant : Nat → Outcome R) : Call R := doRetry grant

/-- The function `Etcd.DoKeepAliveOnce` (etcd.go:182) over the outcomes of `e.KeepAliveOnce`. -/
def DoKeepAliveOnce {R : Type} (keepAliveOnce : Nat → Outcome R) : Call R :=
  doRetry keepAliveOnce

/-- The function `Etcd.DoRevoke` (etcd.go:206) over the outcomes of `e.Revoke`. -/
def DoRevoke {R : Type} (revoke : Nat → Outcome R) : Call R := doRetry revoke

/-! ## etcd values read by the manager -/

/-- The fields of `mvccpb.KeyValue` the manager reads. -/
structure KeyValue where
  Key : String
  Value : String
  CreateRevision : Int
  ModRevision : Int
  deriving DecidableEq, Repr

/-- The fields of `clientv3.GetResponse` the client and the manager read. -/
structure GetResponse where
  Kvs : List KeyValue
  Count : Int
  deriving DecidableEq, Repr

/-- A `clientv3.PutResponse`; nothing in it is read. -/
structure PutResponse where
  Revision : Int
  deriving DecidableEq, Repr

/-- The options the manager and `CheckKey` pass to `DoGet`:
`WithPrefix(), WithSort(SortByKey, SortAscend)` or `WithCountOnly()`. -/
inductive GetOpt
  | prefixSorted
  | countOnly
  deriving DecidableEq, Repr

/-- The type `mvccpb.Event_EventType`. -/
inductive EventType
  | PUT
  | DELETE
  deriving DecidableEq, Repr

/-- A `clientv3.Event`. -/
structure Event where
  Typ : EventType
  Kv : KeyValue
  deriving DecidableEq, Repr

/-- The function `Event.IsCreate` of clientv3: a PUT whose key was created by it. -/
def Event.IsCreate (e : Event) : Bool :=
  e.Typ = EventType.PUT && e.Kv.CreateRevision = e.Kv.ModRevision

/-- The function `Event.IsModify` of clientv3: a PUT on a key that existed. -/
def Event.IsModify (e : Event) : Bool :=
  e.Typ = EventType.PUT && e.Kv.CreateRevision ≠ e.Kv.ModRevision

/-- The constant `DefaultScalerPrefix` (const.go:35). -/
def DefaultScalerPrefix : String := "/scalers"

/-- The constant `DefaultCloudPrefix` (const.go:22). -/
def DefaultCloudPrefix : String := "/clouds"

/-- The pieces of a list of characters between occurrences of `sep`. -/
def splitChars (sep : Char) : List Char → List (List Char)
  | [] => [[]]
  | c :: cs =>
    if c = sep then [] :: splitChars sep cs
    else
      match splitChars sep cs with
      | [] => [[c]]
      | p :: ps => (c :: p) :: ps

/-- The function `strings.Split(s, "/")`. -/
def stringsSplitSlash (s : String) : List String :=
  (splitChars '/' s.data).map String.mk

/-! ## Workers and the registry -/

/-- Modelled from the spec: the Alert state of a worker (section 3), whose type
`model.Alert` is not among the sources: `state`, `activeAt`, `lastFiredAt`. -/
inductive AlertPhase
  | Idle | Pending | Firing | CoolingDown
  deriving DecidableEq, Repr

/-- Modelled from the spec: the record checkpointed into the rule JSON. -/
structure Alert where
  state : AlertPhase
  activeAt : Nat
  lastFiredAt : Nat
  deriving DecidableEq, Repr

/-- A handle on a metrics backend, as returned by `metrics.GetBackend`. -/
structure Backend where
  provider : String
  deriving DecidableEq, Repr

/-- Modelled from the spec: the `*Scaler` worker of package autoscaler, whose
declaration is not among the sources. `rule` is the rule body it was built
from, `alert` is the worker's own `alert.State`, and `Alert` is the exported
field `Alert *model.Alert` that `save` and `rebalance` set before marshalling. -/
structure Scaler where
  name : String
  rule : String
  backend : Backend
  alert : Alert
  Alert : Option Alert
  deriving DecidableEq, Repr

/-- A `common.Worker` interface value: a `*Scaler`, or a value of another
dynamic type (the `default` arm of the type switches). -/
inductive Worker
  | scaler (s : Scaler)
  | other (kind : String)
  deriving DecidableEq, Repr

/-- Modelled from the spec: `common.Registry` (section 4.2), a map from rule
name to worker with `Set`, `Get`, `Delete` and `Iter`; its declaration is not
among the sources. -/
structure Registry where
  Items : AList (fun _ : String => Worker)
  deriving DecidableEq

/-- The function `Registry.Get`: the worker and whether the name is present. -/
def Registry.Get (r : Registry) (name : String) : Option Worker :=
  r.Items.lookup name

/-- The function `Registry.Set`. -/
def Registry.Set (r : Registry) (name : String) (w : Worker) : Registry :=
  ⟨r.Items.insert name w⟩

/-- The function `Registry.Delete`. -/
def Registry.Delete (r : Registry) (name : String) : Registry :=
  ⟨r.Items.erase name⟩

/-- The function `Registry.Iter`: a snapshot of the `RegistryItem`s, as name and value. -/
def Registry.Iter (r : Registry) : List (String × Worker) :=
  r.Items.entries.map (fun e => (e.1, e.2))

/-- Modelled from the spec: `model.State` (section 4.4), the manager states
`Active`, `Stopping`, `Stopped`; its declaration is not among the sources. -/
inductive State
  | Active | Stopping | Stopped
  deriving DecidableEq, Repr

/-- What the manager does to the world, in the order it does it. -/
inductive Effect
  /-- A `DoPut(key, val)` call and the error it returned. -/
  | put (key val : String) (err : Option GoError)
  /-- A value sent on `etcdcli.ErrCh`. -/
  | errCh (err : GoError)
  /-- `Stop()` called on the worker registered under `name`. -/
  | workerStop (name : String) (w : Worker)
  /-- The goroutine `s.run(...)` started for the worker `s`. -/
  | workerRun (name : String) (s : Scaler)
  deriving DecidableEq, Repr

/-- The `Manager` of manager.go:39 with the fields that carry state (`rgt`,
`stop` as whether the channel has been closed, `state`), together with the
number of etcd invocations its process has made so far (`clock`) and the
effects it has had (`trace`). -/
structure Manager where
  rgt : Registry
  stop : Bool
  state : State
  clock : Nat
  trace : List Effect
  deriving DecidableEq

/-- The collaborators of a manager. `LocalIsWorker` is the cluster's
ownership predicate `(local, worker, ok)`; `GetBackend` is
`metrics.GetBackend` (`none` when it returns an error); `newScaler` builds a
worker from the logger's rule name, the rule body and the backend; `marshal`
is `json.Marshal` on a worker (`none` when it returns an error); `Get t` and
`Put t` are what the etcd client returns for the invocation made when `t`
invocations went before. -/
structure Env where
  LocalIsWorker : String → String × String × Bool
  GetBackend : String → Option Backend
  newScaler : String → String → Backend → Scaler
  marshal : Scaler → Option String
  Get : Nat → String → GetOpt → Outcome GetResponse
  Put : Nat → String → String → Outcome PutResponse

/-- The assignment `s.Alert = &s.alert.State` of `save` and `rebalance`: the
exported field now carries the worker's current alert state. -/
def Scaler.checkpoint (s : Scaler) : Scaler := { s with Alert := some s.alert }

/-- The pair `s.Stop(); m.rgt.Delete(name)` of `stopScaler` and `rebalance`
for the worker `w` registered under `name`. -/
def Manager.dropWorker (m : Manager) (name : String) (w : Worker) : Manager :=
  { m with trace := m.trace ++ [Effect.workerStop name w], rgt := m.rgt.Delete name }

/-- The pair `m.rgt.Set(name, s); go s.run(...)` of `startScaler`. -/
def Manager.addWorker (m : Manager) (name : String) (s : Scaler) : Manager :=
  { m with rgt := m.rgt.Set name (Worker.scaler s), trace := m.trace ++ [Effect.workerRun name s] }

/-- A write through the pointer held by the registry under `name`. -/
def Manager.setWorker (m : Manager) (name : String) (w : Worker) : Manager :=
  { m with rgt := m.rgt.Set name w }

/-- Modelled from the spec: `common.Path`, which is not among the sources; the
provider key is `/clouds/<providerID>` (section 6). -/
def Path (pre id : String) : String := pre ++ "/" ++ id

/-- The bookkeeping after a `Do*` call: the clock advances by the attempts
made and the values sent on `ErrCh` are recorded. -/
def Manager.afterCall {R : Type} (m : Manager) (c : Call R) : Manager :=
  { m with clock := m.clock + c.attempts, trace := m.trace ++ c.emitted.map Effect.errCh }

/-- The function `Etcd.CheckKey` (etcd.go:242). A nil response with a nil error is a nil
dereference (`none`). -/
def CheckKey (env : Env) (key : String) (m : Manager) : Option (Bool × Manager) :=
  let c := DoGet (fun i => env.Get (m.clock + i) key GetOpt.countOnly)
  let m1 := m.afterCall c
  match c.err with
  | some _ => some (false, m1)
  | none =>
    match c.result with
    | none => none
    | some resp => if resp.Count = 1 then some (true, m1) else some (false, m1)

/-- The function `Manager.stopScaler` (manager.go:139). `none` is the nil dereference of
`s.Stop()` when the name is not registered. -/
def stopScaler (env : Env) (name : String) (m : Manager) : Option Manager :=
  let s := m.rgt.Get name
  if !(env.LocalIsWorker name).2.2 then some m
  else
    match s with
    | none => none
    | some w => some (m.dropWorker name w)

/-- The function `Manager.startScaler` (manager.go:151). `none` is the index-out-of-range
panic of `strings.Split(name, "/")[2]`. -/
def startScaler (env : Env) (name data : String) (m : Manager) : Option Manager :=
  if !(env.LocalIsWorker name).2.2 then some m
  else
    match (stringsSplitSlash name).get? 2 with
    | none => none
    | some providerID =>
      match env.GetBackend providerID with
      | none => some m
      | some backend =>
        let s := env.newScaler name data backend
        some (m.addWorker name s)

/-- The `DoPut(name, raw)` of `save` and `rebalance`, with its bookkeeping;
returns the error of the call. -/
def putRule (env : Env) (name raw : String) (m : Manager) : Option GoError × Manager :=
  let c := DoPut (fun i => env.Put (m.clock + i) name raw)
  (c.err, { m with clock := m.clock + c.attempts,
                   trace := m.trace ++ [Effect.put name raw c.err] ++ c.emitted.map Effect.errCh })

/-- The synchronisation state of the process that `Stop` depends on and a
`Manager` value does not carry. `leaked` counts the worker goroutines that
`startScaler` has started (manager.go:166-169), that have not exited and that
the registry no longer holds, because a later `m.rgt.Set` replaced them; every
worker the registry holds is itself a started worker that has not been
stopped. `errChRoom` is how many more sends the channel `etcdcli.ErrCh` takes.
In this program that is at most three over the life of the process: the one
slot of the buffer (etcd.go:53) and the two values `Etcd.Run` receives before
it blocks for ever on `stopc` (etcd.go:230-237), from which the supervisor of
`main` receives once (main.go:165-175). -/
structure Sync where
  leaked : Nat
  errChRoom : Nat
  deriving DecidableEq, Repr

/-- The sends `ErrCh` still takes, with the bound of this program. -/
def Sync.room (sync : Sync) : Nat := min sync.errChRoom 3

/-- What a goroutine of `save` has come to before its deferred call: the
manager, the room left on `ErrCh`, and whether the goroutine reached a
`return` (`false`: it is blocked for ever in the send `e.ErrCh <- err` of
`DoPut`, so its deferred call never runs). -/
structure SaveStep where
  m : Manager
  errChRoom : Nat
  returned : Bool

/-- The goroutine of `Manager.save` (manager.go:176) for one registry item,
up to the deferred call. The assignment `it.Alert = &it.alert.State` goes
through the pointer the registry holds. A `DoPut` that ends in an error sends
it on `ErrCh` before it returns (etcd.go:124-126); with no room left on the
channel the send blocks for ever, the call never returns (its attempts are
counted in the clock, and no returned `DoPut` is recorded in the trace), and
the goroutine stays there. -/
def saveItem (env : Env) (errChRoom : Nat) (i : String × Worker) (m : Manager) : SaveStep :=
  match i.2 with
  | Worker.other _ => ⟨m, errChRoom, true⟩
  | Worker.scaler it =>
    let it1 := it.checkpoint
    let m1 := if (m.rgt.Get i.1).isSome then m.setWorker i.1 (Worker.scaler it1) else m
    match env.marshal it1 with
    | none => ⟨m1, errChRoom, true⟩
    | some raw =>
      let c := DoPut (fun k => env.Put (m1.clock + k) i.1 raw)
      match c.err with
      | none => ⟨(putRule env i.1 raw m1).2, errChRoom, true⟩
      | some _ =>
        match errChRoom with
        | 0 => ⟨{ m1 with clock := m1.clock + c.attempts }, 0, false⟩
        | room + 1 => ⟨(putRule env i.1 raw m1).2, room, true⟩

/-- What the goroutines of `save` have come to: how many of them are blocked
for ever, and the manager. -/
structure Saved where
  blocked : Nat
  m : Manager

/-- The goroutines of `Manager.save`, one registry item after the other, with
the room on `ErrCh` and the number of goroutines blocked so far. A goroutine
that reaches a `return` runs its deferred `m.stopScaler(i.Name); m.wg.Done()`;
a blocked one never does and keeps the count of its `m.wg.Add(1)`
(manager.go:175). `none` is a panic. -/
def saveItems (env : Env) : List (String × Worker) → Nat → Nat → Manager → Option Saved
  | [], _, blocked, m => some ⟨blocked, m⟩
  | i :: rest, errChRoom, blocked, m =>
    let step := saveItem env errChRoom i m
    if !step.returned then saveItems env rest step.errChRoom (blocked + 1) step.m
    else
      match stopScaler env i.1 step.m with
      | none => none
      | some m1 => saveItems env rest step.errChRoom blocked m1

/-- The function `Manager.save` (manager.go:173). -/
def save (env : Env) (sync : Sync) (m : Manager) : Option Saved :=
  saveItems env m.rgt.Iter sync.room 0 m

/-- What a call of `Manager.Stop` comes to: it returns, leaving the manager
`m`; or it is blocked for ever in `m.wg.Wait()`, the manager being `m`; or it
panics. -/
inductive StopResult
  | returned (m : Manager)
  | blocked (m : Manager)
  | panic

/-- The manager a call of `Stop` leaves, if it did not panic. -/
def StopResult.manager : StopResult → Option Manager
  | StopResult.returned m => some m
  | StopResult.blocked m => some m
  | StopResult.panic => none

/-- Whether the call of `Stop` returned. -/
def StopResult.isReturned : StopResult → Bool
  | StopResult.returned _ => true
  | _ => false

/-- Whether the call of `Stop` is blocked for ever. -/
def StopResult.isBlocked : StopResult → Bool
  | StopResult.blocked _ => true
  | _ => false

/-- The counter of the WaitGroup `m.wg` when `Stop` comes to `m.wg.Wait()`:
one for every started worker that has not exited, be it leaked or still in the
registry, and one for every goroutine of `save` that is blocked. Modelled from
the spec: the worker's `Stop` and `run` are not among the sources; `Stop`
makes the worker's goroutine exit, and the exit releases the WaitGroup the
goroutine was started with (section 4.4: wait on the WaitGroup for all workers
to exit), so the workers `save` has stopped and removed no longer count. -/
def waitGroup (sync : Sync) (saved : Saved) : Nat :=
  sync.leaked + saved.m.rgt.Iter.length + saved.blocked

/-- The function `Manager.Stop` (manager.go:76). Closing a closed channel
panics. `m.wg.Wait()` (manager.go:86) returns only when the counter of the
WaitGroup is zero; otherwise `Stop` stays blocked there, with
`state = Stopping`. -/
def Stop (env : Env) (sync : Sync) (m : Manager) : StopResult :=
  if m.state = State.Stopping ∨ m.state = State.Stopped then StopResult.returned m
  else
    let m1 := { m with state := State.Stopping }
    if m1.stop then StopResult.panic
    else
      match save env sync { m1 with stop := true } with
      | none => StopResult.panic
      | some saved =>
        if waitGroup sync saved = 0 then
          StopResult.returned { saved.m with state := State.Stopped }
        else StopResult.blocked saved.m

/-- The body of the loop of `Manager.load` (manager.go:213) for one key. -/
def loadItem (env : Env) (ev : KeyValue) (m : Manager) : Option Manager :=
  let sname := ev.Key
  match (stringsSplitSlash sname).get? 2 with
  | none => none
  | some providerID =>
    match CheckKey env (Path DefaultCloudPrefix providerID) m with
    | none => none
    | some (ok, m1) => if !ok then some m1 else startScaler env sname ev.Value m1

/-- The loop of `Manager.load` over `resp.Kvs`. -/
def loadItems (env : Env) : List KeyValue → Manager → Option Manager
  | [], m => some m
  | ev :: rest, m =>
    match loadItem env ev m with
    | none => none
    | some m1 => loadItems env rest m1

/-- The range-Get of the scaler prefix that opens `load` and `rebalance`. -/
def getScalers (env : Env) (m : Manager) : Call GetResponse :=
  DoGet (fun i => env.Get (m.clock + i) DefaultScalerPrefix GetOpt.prefixSorted)

/-- The function `Manager.load` (manager.go:205). -/
def load (env : Env) (m : Manager) : Option Manager :=
  let c := getScalers env m
  let m1 := m.afterCall c
  match c.err with
  | some _ => some m1
  | none =>
    match c.result with
    | none => none
    | some resp => loadItems env resp.Kvs m1

/-- The function `NewManager` (manager.go:51): an empty registry, an open stop channel,
`load`, then `state = StateActive`. `zero` is the zero value of `model.State`,
which the manager has while it loads. -/
def NewManager (env : Env) (zero : State) : Option Manager :=
  match load env ⟨⟨∅⟩, false, zero, 0, []⟩ with
  | none => none
  | some m => some { m with state := State.Active }

/-- The goroutine of `Manager.rebalance` (manager.go:236) for one key. -/
def rebalanceItem (env : Env) (ev : KeyValue) (m : Manager) : Option Manager :=
  let name := ev.Key
  let ok1 := (env.LocalIsWorker name).2.2
  let scaler := m.rgt.Get name
  if !ok1 then
    match scaler with
    | none => some m
    | some (Worker.other _) => some m
    | some (Worker.scaler s) =>
      let s1 := s.checkpoint
      let m1 := m.setWorker name (Worker.scaler s1)
      match env.marshal s1 with
      | none => some m1
      | some raw =>
        let (err, m2) := putRule env name raw m1
        if err.isSome then some m2 else some (m2.dropWorker name (Worker.scaler s1))
  else if scaler.isNone then startScaler env name ev.Value m
  else some m

/-- The goroutines of `Manager.rebalance`, one key after the other. -/
def rebalanceItems (env : Env) : List KeyValue → Manager → Option Manager
  | [], m => some m
  | ev :: rest, m =>
    match rebalanceItem env ev m with
    | none => none
    | some m1 => rebalanceItems env rest m1

/-- The function `Manager.rebalance` (manager.go:225). -/
def rebalance (env : Env) (m : Manager) : Option Manager :=
  let c := getScalers env m
  let m1 := m.afterCall c
  match c.err with
  | some _ => some m1
  | none =>
    match c.result with
    | none => none
    | some resp => rebalanceItems env resp.Kvs m1

/-- The function `Manager.Reload` (manager.go:69). -/
def Reload (env : Env) (m : Manager) : Option Manager := rebalance env m

/-- The dispatch of one watch event in `Manager.Run` (manager.go:118-133). -/
def handleEvent (env : Env) (event : Event) (m : Manager) : Option Manager :=
  let sname := event.Kv.Key
  if event.IsCreate then startScaler env sname event.Kv.Value m
  else if event.IsModify then
    if (m.rgt.Get sname).isSome then
      match stopScaler env sname m with
      | none => none
      | some m1 => startScaler env sname event.Kv.Value m1
    else some m
  else if event.Typ = EventType.DELETE then
    if (m.rgt.Get sname).isSome then stopScaler env sname m else some m
  else some m

/-- The loop `for _, event := range watchResp.Events` of `Manager.Run`
(manager.go:117). -/
def handleEvents (env : Env) : List Event → Manager → Option Manager
  | [], m => some m
  | event :: rest, m =>
    match handleEvent env event m with
    | none => none
    | some m1 => handleEvents env rest m1


/-- Whether a failure is a `DeadlineExceeded`: the sentinel of package
`context` or a gRPC status with that code. -/
def GoError.isDeadlineExceeded : GoError → Bool
  | .ctxDeadlineExceeded => true
  | .status Code.DeadlineExceeded _ => true
  | _ => false

/-- Two manager values with the same `state` and the same stop channel. -/
def Manager.sameControl (m m' : Manager) : Prop :=
  m'.state = m.state ∧ m'.stop = m.stop

/-- Every worker in the registry is a `*Scaler`, as is the case for a registry
filled by `startScaler`. -/
def Registry.onlyScalers (r : Registry) : Prop :=
  ∀ n w, r.Get n = some w → ∃ s, w = Worker.scaler s

/-- Every invocation of the etcd Put returns a nil error. -/
def Env.putsSucceed (env : Env) : Prop :=
  ∀ t key val, (env.Put t key val).err = none

/-- The function `json.Marshal` returns no error on any worker. -/
def Env.marshals (env : Env) : Prop :=
  ∀ s, (env.marshal s).isSome = true

/-! ## Sample collaborators, for running the definitions -/

/-- The rule key used in the runs below. -/
def sampleKey : String := "/scalers/p1/r1"

/-- The KV entry of the sample rule. -/
def sampleKv : KeyValue := ⟨sampleKey, "rule", 5, 5⟩

/-- Collaborators of node `me` when the cluster assigns every rule to `owner`:
the range-Get lists `kvs`, every provider key exists, `DoPut` fails with
`putErr` if given, and the metrics backend is available iff `backendOk`. A new
worker starts in `Idle`, and marshalling yields the rule body. -/
def sampleEnv (me owner : String) (kvs : List KeyValue) (putErr : Option GoError)
    (backendOk : Bool) : Env where
  LocalIsWorker := fun _ => (me, owner, me == owner)
  GetBackend := fun p => if backendOk then some ⟨p⟩ else none
  newScaler := fun name data b => ⟨name, data, b, ⟨AlertPhase.Idle, 0, 0⟩, none⟩
  marshal := fun s => some s.rule
  Get := fun _ _ opt =>
    match opt with
    | GetOpt.prefixSorted => Outcome.ok ⟨kvs, kvs.length⟩
    | GetOpt.countOnly => Outcome.ok ⟨[], 1⟩
  Put := fun _ _ _ =>
    match putErr with
    | some e => Outcome.fail e
    | none => Outcome.ok ⟨1⟩

/-- A worker in `Pending`, as built from the sample rule some time ago. -/
def sampleScaler : Scaler :=
  ⟨sampleKey, "rule", ⟨"p1"⟩, ⟨AlertPhase.Pending, 3, 0⟩, none⟩

/-- An `Active` manager that runs the sample worker. -/
def sampleManager : Manager :=
  ⟨(⟨∅⟩ : Registry).Set sampleKey (Worker.scaler sampleScaler), false, State.Active, 2, []⟩

/-- Whether an effect is a write to the KV store. The manager never deletes a
key, so the writes are the Puts. -/
def Effect.isPut : Effect → Bool
  | Effect.put _ _ _ => true
  | _ => false

/-- The Puts among the effects of a manager, in order. -/
def Manager.puts (m : Manager) : List Effect := m.trace.filter Effect.isPut

/-- An `Active` manager that runs four rules of provider `p1`. -/
def fourRulesManager : Manager :=
  ⟨((((⟨∅⟩ : Registry).Set "/scalers/p1/r1"
        (Worker.scaler ⟨"/scalers/p1/r1", "rule1", ⟨"p1"⟩, ⟨AlertPhase.Idle, 0, 0⟩, none⟩)).Set
      "/scalers/p1/r2"
        (Worker.scaler ⟨"/scalers/p1/r2", "rule2", ⟨"p1"⟩, ⟨AlertPhase.Idle, 0, 0⟩, none⟩)).Set
      "/scalers/p1/r3"
        (Worker.scaler ⟨"/scalers/p1/r3", "rule3", ⟨"p1"⟩, ⟨AlertPhase.Idle, 0, 0⟩, none⟩)).Set
      "/scalers/p1/r4"
        (Worker.scaler ⟨"/scalers/p1/r4", "rule4", ⟨"p1"⟩, ⟨AlertPhase.Idle, 0, 0⟩, none⟩),
    false, State.Active, 9, []⟩

/-- Whether an effect is a worker's `Stop()`. -/
def Effect.isWorkerStop : Effect → Bool
  | Effect.workerStop _ _ => true
  | _ => false

/-! ## The watch loop of the manager -/

/-- A `clientv3.WatchResponse`: the value of `watchResp.Err()` and the events. -/
structure WatchResponse where
  Err : Option GoError
  Events : List Event
  deriving DecidableEq, Repr

/-- What one pass of the `select` of `Manager.Run` receives: a value from the
stop channel, or a response from the watch channel. -/
inductive Received
  | stop
  | watchResp (r : WatchResponse)
  deriving DecidableEq, Repr

/-- The state of a running `Manager.Run`: the manager, the local `retryCount`,
how many times `m.etcdcli.Watch` has been called (once on entry), how many
times the loop slept for the retry interval, and whether `Run` has returned. -/
structure RunState where
  m : Manager
  retryCount : Nat
  watches : Nat
  sleeps : Nat
  returned : Bool

/-- One pass of the loop of `Manager.Run` (manager.go:98-136). A watch error
that is `ErrNoLeader` with `retryCount <= DefaultEtcdRetryCount` re-creates
the watch, counts the retry, sleeps and continues; any other watch error is
sent on `ErrCh` and the `break` leaves the `select`, so the events of that
response are not dispatched; a response without error has its events
dispatched. -/
def runStep (env : Env) (s : RunState) : Received → Option RunState
  | Received.stop => some { s with returned := true }
  | Received.watchResp watchResp =>
    match watchResp.Err with
    | some err =>
      if err = GoError.ErrNoLeader ∧ s.retryCount ≤ DefaultEtcdRetryCount then
        some { s with watches := s.watches + 1, retryCount := s.retryCount + 1,
                      sleeps := s.sleeps + 1 }
      else
        some { s with m := { s.m with trace := s.m.trace ++ [Effect.errCh err] } }
    | none =>
      match handleEvents env watchResp.Events s.m with
      | none => none
      | some m1 => some { s with m := m1 }

/-- The loop of `Manager.Run` over what its `select` receives, in order; once
`Run` has returned nothing more is received. -/
def runLoop (env : Env) : List Received → RunState → Option RunState
  | [], s => some s
  | r :: rest, s =>
    if s.returned then some s
    else
      match runStep env s r with
      | none => none
      | some s1 => runLoop env rest s1

/-- The function `Manager.Run` (manager.go:92): `retryCount := 0`, one call of
`Watch`, then the loop. -/
def Run (env : Env) (received : List Received) (m : Manager) : Option RunState :=
  runLoop env received ⟨m, 0, 1, 0, false⟩

/-- How many times `Run` has re-established the watch. -/
def RunState.reestablished (s : RunState) : Nat := s.watches - 1

/-- A watch response that carries the error `err` and no events. -/
def watchError (err : GoError) : Received := Received.watchResp ⟨some err, []⟩

/-! ## Rule validation -/

namespace Model

/-- Modelled from the spec: the HTTP action spec of a rule (section 3), whose
type `ActionHTTP` is not among the sources: URL, method, headers and body
template. -/
structure ActionHTTP where
  URL : String
  Method : String
  Header : List (String × String)
  Body : String
  deriving DecidableEq, Repr

/-- The struct `model.Scaler` (scaler.go:27). `Actions` is the map from action
name to action, in the order the `range` visits it. -/
structure Scaler where
  Query : String
  Duration : String
  Description : String
  Interval : String
  Actions : List (String × ActionHTTP)
  Tags : List String
  Active : Bool
  ID : String
  Alert : Option Alert
  Cooldown : String
  deriving DecidableEq, Repr

/-- The functions `Validate` calls that are not among the sources.
`actionValidate` is `ActionHTTP.Validate`, taken as a check that returns an
error or nil; `ParseDuration` is `time.ParseDuration` of the Go library, in
nanoseconds; `HashMD5 q` is `common.Hash(q, crypto.MD5)`. -/
structure Lib where
  actionValidate : ActionHTTP → Option GoError
  ParseDuration : String → Except GoError Int
  HashMD5 : String → String

/-- Whether `time.ParseDuration` returns no error on `s`. -/
def Lib.parses (lib : Lib) (s : String) : Bool :=
  match lib.ParseDuration s with
  | Except.ok _ => true
  | Except.error _ => false

/-- The loop `for _, a := range s.Actions` of `Validate` (scaler.go:42): the
first error of an action's `Validate`, if any. -/
def validateActions (lib : Lib) : List (String × ActionHTTP) → Option GoError
  | [] => none
  | a :: rest =>
    match lib.actionValidate a.2 with
    | some err => some err
    | none => validateActions lib rest

/-- The method `Scaler.Validate` (scaler.go:41): the scaler as the call leaves
it and the error returned. -/
def Scaler.Validate (lib : Lib) (s : Scaler) : Scaler × Option GoError :=
  match validateActions lib s.Actions with
  | some err => (s, some err)
  | none =>
    if s.Query = "" then
      (s, some (GoError.other ("required field " ++ s.Query ++ " is missing or invalid")))
    else
      match lib.ParseDuration s.Duration with
      | Except.error err => (s, some err)
      | Except.ok _ =>
        match lib.ParseDuration s.Interval with
        | Except.error err => (s, some err)
        | Except.ok _ =>
          let s1 : Scaler := if s.Cooldown = "" then { s with Cooldown := "600s" } else s
          match lib.ParseDuration s1.Cooldown with
          | Except.error err => (s1, some err)
          | Except.ok _ => ({ s1 with ID := lib.HashMD5 s1.Query }, none)

/-- A library for running `Validate`: every action is valid, a duration parses
iff it is one of a few literals, and the hash is a tagged copy. -/
def sampleLib : Lib where
  actionValidate := fun _ => none
  ParseDuration := fun s =>
    if s = "600s" then Except.ok 600000000000
    else if s = "3m" then Except.ok 180000000000
    else if s = "30s" then Except.ok 30000000000
    else Except.error (GoError.other ("time: invalid duration " ++ s))
  HashMD5 := fun q => "md5:" ++ q

/-- A valid rule with an empty cooldown and an ID chosen by the caller. -/
def sampleRule : Scaler :=
  ⟨"x>0", "3m", "", "30s", [("a1", ⟨"http://sink", "POST", [], ""⟩)], [], true, "mine", none, ""⟩

end Model

/-! ## The supervisor goroutine of the process -/

/-- What the supervisor goroutine of `main` can receive: a value on the
cluster's reload channel `reloadc`, or one on `stopc`. -/
inductive Signal
  | reload
  | stop
  deriving DecidableEq, Repr

/-- What the supervisor goroutine does: `fas.Reload()`, `fah.Reload()`,
`stopFunc()`, and the SIGTERM it sends to its own process. -/
inductive SupervisorAction
  | fasReload
  | fahReload
  | stopFunc
  | kill
  deriving DecidableEq, Repr

/-- The goroutine of main.go:165-175 over the values that arrive on its two
channels: a single `select`, outside any loop, so the first value is acted on
and the goroutine ends. -/
def supervisor : List Signal → List SupervisorAction
  | [] => []
  | Signal.reload :: _ => [SupervisorAction.fasReload, SupervisorAction.fahReload]
  | Signal.stop :: _ => [SupervisorAction.stopFunc, SupervisorAction.kill]

/-! ## The retry loop -/

theorem retryLoop_attempts_ge {R : Type} (op : Nat → Outcome R) (n i : Nat) (c : Call R) :
    c.attempts ≤ (retryLoop op n i c).attempts := by
  induction n generalizing i c with
  | zero => simp [retryLoop]
  | succ n ih =>
    simp only [retryLoop]
    split
    · exact le_trans (by simp) (ih _ _)
    · simp

theorem retryLoop_attempts_le {R : Type} (op : Nat → Outcome R) (n i : Nat) (c : Call R) :
    (retryLoop op n i c).attempts ≤ c.attempts + n := by
  induction n generalizing i c with
  | zero => simp [retryLoop]
  | succ n ih =>
    simp only [retryLoop]
    split
    · refine le_trans (ih _ _) ?_
      simp only
      omega
    · simp only
      omega

theorem retryLoop_attempts_pos {R : Type} (op : Nat → Outcome R) (n i : Nat) (c : Call R) :
    c.attempts + 1 ≤ (retryLoop op (n + 1) i c).attempts := by
  simp only [retryLoop]
  split
  · exact le_trans (by simp) (retryLoop_attempts_ge op n _ _)
  · simp

theorem doRetry_attempts {R : Type} (op : Nat → Outcome R) :
    (doRetry op).attempts
      = (retryLoop op DefaultEtcdRetryCount 0 ⟨none, none, 0, 0, []⟩).attempts := by
  unfold doRetry
  simp only
  split <;> rfl

theorem doRetry_attempts_bounds {R : Type} (op : Nat → Outcome R) :
    1 ≤ (doRetry op).attempts ∧ (doRetry op).attempts ≤ DefaultEtcdRetryCount := by
  rw [doRetry_attempts]
  constructor
  · have h := retryLoop_attempts_pos op 2 0 ⟨none, none, 0, 0, []⟩
    simpa [DefaultEtcdRetryCount] using h
  · have h := retryLoop_attempts_le op DefaultEtcdRetryCount 0 ⟨none, none, 0, 0, []⟩
    simpa using h

/-- C1. Retry bound: whatever the outcomes of the underlying etcd operation,
each of `DoGet`, `DoPut`, `DoDelete`, `DoGrant`, `DoKeepAliveOnce` and
`DoRevoke` invokes it at least once and at most `DefaultEtcdRetryCount + 1`
times per logical call, where `DefaultEtcdRetryCount = 3`. -/
theorem C1_retry_bound {R : Type} (op : Nat → Outcome R) :
    DefaultEtcdRetryCount = 3
    ∧ (1 ≤ (DoGet op).attempts ∧ (DoGet op).attempts ≤ DefaultEtcdRetryCount + 1)
    ∧ (1 ≤ (DoPut op).attempts ∧ (DoPut op).attempts ≤ DefaultEtcdRetryCount + 1)
    ∧ (1 ≤ (DoDelete op).attempts ∧ (DoDelete op).attempts ≤ DefaultEtcdRetryCount + 1)
    ∧ (1 ≤ (DoGrant op).attempts ∧ (DoGrant op).attempts ≤ DefaultEtcdRetryCount + 1)
    ∧ (1 ≤ (DoKeepAliveOnce op).attempts
        ∧ (DoKeepAliveOnce op).attempts ≤ DefaultEtcdRetryCount + 1)
    ∧ (1 ≤ (DoRevoke op).attempts ∧ (DoRevoke op).attempts ≤ DefaultEtcdRetryCount + 1) := by
  have h := doRetry_attempts_bounds op
  have h2 : 1 ≤ (doRetry op).attempts ∧ (doRetry op).attempts ≤ DefaultEtcdRetryCount + 1 :=
    ⟨h.1, Nat.le_succ_of_le h.2⟩
  exact ⟨rfl, h2, h2, h2, h2, h2, h2⟩

/-- The call in closed form: the three iterations of the loop spelled out. -/
theorem doRetry_unfold {R : Type} (op : Nat → Outcome R) :
    doRetry op =
      if isRetryNeeded (op 0).err then
        if isRetryNeeded (op 1).err then
          if isRetryNeeded (op 2).err then
            ⟨(op 2).result, (op 2).err, 3, 3, (op 2).err.toList⟩
          else ⟨(op 2).result, (op 2).err, 3, 2, (op 2).err.toList⟩
        else ⟨(op 1).result, (op 1).err, 2, 1, (op 1).err.toList⟩
      else ⟨(op 0).result, (op 0).err, 1, 0, (op 0).err.toList⟩ := by
  simp only [doRetry, retryLoop, DefaultEtcdRetryCount]
  split_ifs <;> simp only [] <;> split <;> simp_all

theorem isRetryNeeded_of_isDeadlineExceeded (e : GoError) (h : e.isDeadlineExceeded = true) :
    isRetryNeeded (some e) = true := by
  cases e with
  | status code text =>
    cases code <;> simp_all [GoError.isDeadlineExceeded, isRetryNeeded, isClientTimeout,
      statusFromError]
  | _ => simp_all [GoError.isDeadlineExceeded, isRetryNeeded, isClientTimeout, statusFromError]

theorem doRetry_after_transient {R : Type} (op : Nat → Outcome R) (k : Nat) (r : R)
    (hk : k < 3)
    (hfail : ∀ i, i < k → ∃ e, (op i).err = some e ∧ e.isDeadlineExceeded = true)
    (hok : op k = Outcome.ok r) :
    doRetry op = ⟨some r, none, k + 1, k, []⟩ := by
  have hr : ∀ i, i < k → isRetryNeeded (op i).err = true := by
    intro i hi
    obtain ⟨e, he, hd⟩ := hfail i hi
    rw [he]
    exact isRetryNeeded_of_isDeadlineExceeded e hd
  have hn : isRetryNeeded (none : Option GoError) = false := rfl
  rw [doRetry_unfold]
  interval_cases k
  · simp [hn, hok, Outcome.ok]
  · simp [hn, hok, Outcome.ok, hr 0 (by decide)]
  · simp [hn, hok, Outcome.ok, hr 0 (by decide), hr 1 (by decide)]

theorem doRetry_once {R : Type} (op : Nat → Outcome R)
    (h : isRetryNeeded (op 0).err = false) :
    doRetry op = ⟨(op 0).result, (op 0).err, 1, 0, (op 0).err.toList⟩ := by
  rw [doRetry_unfold]
  simp [h]

theorem doRetry_next_attempt {R : Type} (op : Nat → Outcome R) (i : Nat)
    (h : i + 1 < (doRetry op).attempts) : isRetryNeeded (op i).err = true := by
  rw [doRetry_unfold] at h
  split_ifs at h with h0 h1 h2
  all_goals simp only [] at h
  all_goals first
    | omega
    | (have hi : i = 0 ∨ i = 1 := by omega
       rcases hi with rfl | rfl <;> assumption)
    | (have hi : i = 0 := by omega
       subst hi; assumption)

theorem doRetry_emitted {R : Type} (op : Nat → Outcome R) :
    (doRetry op).emitted = (doRetry op).err.toList := by
  rw [doRetry_unfold]
  split_ifs <;> rfl

theorem doRetry_err_last {R : Type} (op : Nat → Outcome R) :
    (doRetry op).err = (op ((doRetry op).attempts - 1)).err
    ∧ (doRetry op).result = (op ((doRetry op).attempts - 1)).result := by
  rw [doRetry_unfold]
  split_ifs <;> exact ⟨rfl, rfl⟩

theorem doRetry_err_final {R : Type} (op : Nat → Outcome R) :
    isRetryNeeded (doRetry op).err = false
    ∨ (doRetry op).attempts = DefaultEtcdRetryCount := by
  rw [doRetry_unfold]
  split_ifs with h0 h1 h2
  · right; rfl
  · right; rfl
  · left; simpa using h1
  · left; simpa using h0

/-- C2, the claim as stated fails: `rpctypes.ErrTimeout` ("etcdserver: request
timed out") is retried although it is neither a client-side deadline exceeded,
nor a server-side context timeout, nor the leader-failover timeout; a `DoPut`
whose operation keeps failing with it makes three attempts, not one. -/
theorem C2_counterexample :
    isRetryNeeded (some GoError.ErrTimeout) = true
    ∧ isClientTimeout (some GoError.ErrTimeout) = false
    ∧ isServerCtxTimeout (some GoError.ErrTimeout) = false
    ∧ GoError.ErrTimeout ≠ GoError.ErrTimeoutDueToLeaderFail
    ∧ (DoPut (fun _ => (Outcome.fail GoError.ErrTimeout : Outcome PutResponse))).attempts
        = 3 := by
  decide

/-- C2, amended. `isRetryNeeded` is true exactly for a client-side deadline
exceeded, a server-side context timeout, the etcd request timeout `ErrTimeout`
and the leader-failover timeout `ErrTimeoutDueToLeaderFail`; a `Do*` call makes
another attempt after attempt `i` only if that attempt's error is retryable;
nil, canceled, permission denied and invalid argument are not retryable; and
when the first error is not retryable the call invokes the operation exactly
once and returns that result at once, without sleeping. -/
theorem C2_retry_only_retryable {R : Type} (op : Nat → Outcome R) :
    (∀ err : Option GoError, isRetryNeeded err = true ↔
        (isClientTimeout err = true ∨ isServerCtxTimeout err = true
          ∨ err = some GoError.ErrTimeout ∨ err = some GoError.ErrTimeoutDueToLeaderFail))
    ∧ (∀ i, i + 1 < (DoGet op).attempts → isRetryNeeded (op i).err = true)
    ∧ (∀ i, i + 1 < (DoPut op).attempts → isRetryNeeded (op i).err = true)
    ∧ (∀ i, i + 1 < (DoDelete op).attempts → isRetryNeeded (op i).err = true)
    ∧ (∀ i, i + 1 < (DoGrant op).attempts → isRetryNeeded (op i).err = true)
    ∧ (∀ i, i + 1 < (DoKeepAliveOnce op).attempts → isRetryNeeded (op i).err = true)
    ∧ (∀ i, i + 1 < (DoRevoke op).attempts → isRetryNeeded (op i).err = true)
    ∧ isRetryNeeded none = false
    ∧ isRetryNeeded (some GoError.ctxCanceled) = false
    ∧ isRetryNeeded (some GoError.ErrPermissionDenied) = false
    ∧ (∀ text, isRetryNeeded (some (GoError.status Code.Canceled text)) = false)
    ∧ (∀ text, isRetryNeeded (some (GoError.status Code.PermissionDenied text)) = false)
    ∧ (∀ text, isRetryNeeded (some (GoError.status Code.InvalidArgument text)) = false)
    ∧ (isRetryNeeded (op 0).err = false →
        DoGet op = ⟨(op 0).result, (op 0).err, 1, 0, (op 0).err.toList⟩
        ∧ DoPut op = ⟨(op 0).result, (op 0).err, 1, 0, (op 0).err.toList⟩
        ∧ DoDelete op = ⟨(op 0).result, (op 0).err, 1, 0, (op 0).err.toList⟩
        ∧ DoGrant op = ⟨(op 0).result, (op 0).err, 1, 0, (op 0).err.toList⟩
        ∧ DoKeepAliveOnce op = ⟨(op 0).result, (op 0).err, 1, 0, (op 0).err.toList⟩
        ∧ DoRevoke op = ⟨(op 0).result, (op 0).err, 1, 0, (op 0).err.toList⟩) := by
  refine ⟨?_, doRetry_next_attempt op, doRetry_next_attempt op, doRetry_next_attempt op,
    doRetry_next_attempt op, doRetry_next_attempt op, doRetry_next_attempt op,
    by decide, by decide, by decide, ?_, ?_, ?_, ?_⟩
  · intro err
    simp [isRetryNeeded, or_assoc]
  · intro text; simp [isRetryNeeded, isClientTimeout, isServerCtxTimeout, statusFromError]
  · intro text; simp [isRetryNeeded, isClientTimeout, isServerCtxTimeout, statusFromError]
  · intro text; simp [isRetryNeeded, isClientTimeout, isServerCtxTimeout, statusFromError]
  · intro h
    have h1 := doRetry_once op h
    exact ⟨h1, h1, h1, h1, h1, h1⟩

/-- A run of C2's theorem: a `DoGet` whose first attempt fails with permission
denied. -/
theorem C2_retry_only_retryable_witness :
    DoGet (fun _ => (Outcome.fail GoError.ErrPermissionDenied : Outcome GetResponse))
      = ⟨none, some GoError.ErrPermissionDenied, 1, 0, [GoError.ErrPermissionDenied]⟩ :=
  ((C2_retry_only_retryable
      (fun _ => (Outcome.fail GoError.ErrPermissionDenied : Outcome GetResponse))).2.2.2.2.2.2.2.2.2.2.2.2.2
    (by decide)).1

/-- C3. Success after transient failures: for every `k < 3`, if the first `k`
attempts of a `DoPut`, `DoGet` or `DoDelete` fail with DeadlineExceeded and
attempt `k + 1` succeeds with response `r`, the call makes exactly `k + 1`
attempts (sleeping `k` times), returns `r` with a nil error and sends nothing
on the error channel. -/
theorem C3_success_after_transient {R : Type} (op : Nat → Outcome R) (k : Nat) (r : R)
    (hk : k < 3)
    (hfail : ∀ i, i < k → ∃ e, (op i).err = some e ∧ e.isDeadlineExceeded = true)
    (hok : op k = Outcome.ok r) :
    DoPut op = ⟨some r, none, k + 1, k, []⟩
    ∧ DoGet op = ⟨some r, none, k + 1, k, []⟩
    ∧ DoDelete op = ⟨some r, none, k + 1, k, []⟩ :=
  ⟨doRetry_after_transient op k r hk hfail hok, doRetry_after_transient op k r hk hfail hok,
    doRetry_after_transient op k r hk hfail hok⟩

/-- The scenario of the spec for C3: DeadlineExceeded on the first two Puts,
the third succeeds; three attempts, one success, nothing on the error
channel. -/
theorem C3_success_after_transient_witness :
    DoPut (fun i => if i < 2 then Outcome.fail GoError.ctxDeadlineExceeded
                    else Outcome.ok (PutResponse.mk 7))
      = ⟨some (PutResponse.mk 7), none, 3, 2, []⟩ :=
  (C3_success_after_transient
    (fun i => if i < 2 then Outcome.fail GoError.ctxDeadlineExceeded
              else Outcome.ok (PutResponse.mk 7))
    2 (PutResponse.mk 7) (by decide)
    (fun i hi => ⟨GoError.ctxDeadlineExceeded, by simp [hi, Outcome.fail], rfl⟩)
    (by simp)).1

/-- C4. Error surfacing: every `Do*` call sends on `ErrCh` exactly the list
made of its returned error, so one value, the returned error, if and only if
that error is non-nil, and nothing on success; the returned pair is the outcome
of the last attempt made, and a returned error is either not retryable or the
error of the last permitted attempt. -/
theorem C4_error_surfacing {R : Type} (op : Nat → Outcome R) :
    ((DoGet op).emitted = (DoGet op).err.toList
      ∧ (DoPut op).emitted = (DoPut op).err.toList
      ∧ (DoDelete op).emitted = (DoDelete op).err.toList
      ∧ (DoGrant op).emitted = (DoGrant op).err.toList
      ∧ (DoKeepAliveOnce op).emitted = (DoKeepAliveOnce op).err.toList
      ∧ (DoRevoke op).emitted = (DoRevoke op).err.toList)
    ∧ ((DoGet op).emitted ≠ [] ↔ (DoGet op).err ≠ none)
    ∧ (∀ e, (DoGet op).err = some e → (DoGet op).emitted = [e])
    ∧ ((DoGet op).err = none → (DoGet op).emitted = [])
    ∧ (DoGet op).err = (op ((DoGet op).attempts - 1)).err
    ∧ (DoGet op).result = (op ((DoGet op).attempts - 1)).result
    ∧ (isRetryNeeded (DoGet op).err = false
        ∨ (DoGet op).attempts = DefaultEtcdRetryCount) := by
  have h := doRetry_emitted op
  refine ⟨⟨h, h, h, h, h, h⟩, ?_, ?_, ?_, (doRetry_err_last op).1, (doRetry_err_last op).2,
    doRetry_err_final op⟩
  · show (doRetry op).emitted ≠ [] ↔ (doRetry op).err ≠ none
    rw [h]
    cases (doRetry op).err <;> simp
  · intro e he
    show (doRetry op).emitted = [e]
    rw [h, show (doRetry op).err = some e from he]
    rfl
  · intro he
    show (doRetry op).emitted = []
    rw [h, show (doRetry op).err = none from he]
    rfl

/-! ## The registry -/

theorem Registry.Get_Set (r : Registry) (n n' : String) (w : Worker) :
    (r.Set n w).Get n' = if n' = n then some w else r.Get n' := by
  unfold Registry.Set Registry.Get
  split_ifs with h
  · subst h
    exact AList.lookup_insert _
  · exact AList.lookup_insert_ne h

theorem Registry.Get_Delete (r : Registry) (n n' : String) :
    (r.Delete n).Get n' = if n' = n then none else r.Get n' := by
  unfold Registry.Delete Registry.Get
  split_ifs with h
  · subst h
    exact AList.lookup_erase _ _
  · exact AList.lookup_erase_ne h

theorem Registry.Iter_nodup (r : Registry) : (r.Iter.map Prod.fst).Nodup := by
  unfold Registry.Iter
  rw [List.map_map]
  exact r.Items.nodupKeys

theorem Registry.Iter_mem (r : Registry) (i : String × Worker) (h : i ∈ r.Iter) :
    r.Get i.1 = some i.2 := by
  unfold Registry.Iter at h
  obtain ⟨e, he, rfl⟩ := List.mem_map.1 h
  unfold Registry.Get
  obtain ⟨k, v⟩ := e
  exact AList.mem_lookup_iff.2 he

/-! ## The manager's state and stop channel are touched by `Stop` only -/

theorem Manager.sameControl_refl (m : Manager) : m.sameControl m := ⟨rfl, rfl⟩

theorem Manager.sameControl_trans {a b c : Manager} (h1 : a.sameControl b)
    (h2 : b.sameControl c) : a.sameControl c :=
  ⟨h2.1.trans h1.1, h2.2.trans h1.2⟩

theorem stopScaler_sameControl (env : Env) (name : String) (m m' : Manager)
    (h : stopScaler env name m = some m') : m.sameControl m' := by
  unfold stopScaler at h
  simp only at h
  split at h
  · cases h; exact Manager.sameControl_refl _
  · split at h
    · cases h
    · cases h; exact ⟨rfl, rfl⟩

theorem startScaler_sameControl (env : Env) (name data : String) (m m' : Manager)
    (h : startScaler env name data m = some m') : m.sameControl m' := by
  unfold startScaler at h
  split at h
  · cases h; exact Manager.sameControl_refl _
  · split at h
    · cases h
    · split at h
      · cases h; exact Manager.sameControl_refl _
      · cases h; exact ⟨rfl, rfl⟩

theorem putRule_sameControl (env : Env) (name raw : String) (m : Manager) :
    m.sameControl (putRule env name raw m).2 := ⟨rfl, rfl⟩

theorem CheckKey_sameControl (env : Env) (key : String) (m m' : Manager) (b : Bool)
    (h : CheckKey env key m = some (b, m')) : m.sameControl m' := by
  unfold CheckKey at h
  simp only at h
  split at h
  · cases h; exact ⟨rfl, rfl⟩
  · split at h
    · cases h
    · split at h <;> cases h <;> exact ⟨rfl, rfl⟩

theorem loadItem_sameControl (env : Env) (ev : KeyValue) (m m' : Manager)
    (h : loadItem env ev m = some m') : m.sameControl m' := by
  unfold loadItem at h
  simp only at h
  split at h
  · cases h
  · split at h
    · cases h
    · rename_i ok m1 hc
      have h1 := CheckKey_sameControl env _ _ _ _ hc
      split at h
      · cases h; exact h1
      · exact Manager.sameControl_trans h1 (startScaler_sameControl env _ _ _ _ h)

theorem loadItems_sameControl (env : Env) (l : List KeyValue) (m m' : Manager)
    (h : loadItems env l m = some m') : m.sameControl m' := by
  induction l generalizing m with
  | nil => simp only [loadItems] at h; cases h; exact Manager.sameControl_refl _
  | cons ev rest ih =>
    simp only [loadItems] at h
    split at h
    · cases h
    · rename_i m1 h1
      exact Manager.sameControl_trans (loadItem_sameControl env ev m m1 h1) (ih _ h)

theorem load_sameControl (env : Env) (m m' : Manager) (h : load env m = some m') :
    m.sameControl m' := by
  unfold load at h
  simp only at h
  split at h
  · cases h; exact ⟨rfl, rfl⟩
  · split at h
    · cases h
    · have h0 : m.sameControl (m.afterCall (getScalers env m)) := ⟨rfl, rfl⟩
      exact Manager.sameControl_trans h0 (loadItems_sameControl env _ _ _ h)

theorem rebalanceItem_sameControl (env : Env) (ev : KeyValue) (m m' : Manager)
    (h : rebalanceItem env ev m = some m') : m.sameControl m' := by
  unfold rebalanceItem at h
  simp only at h
  split at h
  · split at h
    · cases h; exact Manager.sameControl_refl _
    · cases h; exact Manager.sameControl_refl _
    · split at h
      · cases h; exact ⟨rfl, rfl⟩
      · split at h <;> cases h <;> exact ⟨rfl, rfl⟩
  · split at h
    · exact startScaler_sameControl env _ _ _ _ h
    · cases h; exact Manager.sameControl_refl _

theorem rebalanceItems_sameControl (env : Env) (l : List KeyValue) (m m' : Manager)
    (h : rebalanceItems env l m = some m') : m.sameControl m' := by
  induction l generalizing m with
  | nil => simp only [rebalanceItems] at h; cases h; exact Manager.sameControl_refl _
  | cons ev rest ih =>
    simp only [rebalanceItems] at h
    split at h
    · cases h
    · rename_i m1 h1
      exact Manager.sameControl_trans (rebalanceItem_sameControl env ev m m1 h1) (ih _ h)

theorem rebalance_sameControl (env : Env) (m m' : Manager) (h : rebalance env m = some m') :
    m.sameControl m' := by
  unfold rebalance at h
  simp only at h
  split at h
  · cases h; exact ⟨rfl, rfl⟩
  · split at h
    · cases h
    · have h0 : m.sameControl (m.afterCall (getScalers env m)) := ⟨rfl, rfl⟩
      exact Manager.sameControl_trans h0 (rebalanceItems_sameControl env _ _ _ h)

theorem handleEvent_sameControl (env : Env) (event : Event) (m m' : Manager)
    (h : handleEvent env event m = some m') : m.sameControl m' := by
  unfold handleEvent at h
  simp only at h
  split at h
  · exact startScaler_sameControl env _ _ _ _ h
  · split at h
    · split at h
      · split at h
        · cases h
        · rename_i m1 h1
          exact Manager.sameControl_trans (stopScaler_sameControl env _ _ _ h1)
            (startScaler_sameControl env _ _ _ _ h)
      · cases h; exact Manager.sameControl_refl _
    · split at h
      · split at h
        · exact stopScaler_sameControl env _ _ _ h
        · cases h; exact Manager.sameControl_refl _
      · cases h; exact Manager.sameControl_refl _

theorem handleEvents_sameControl (env : Env) (l : List Event) (m m' : Manager)
    (h : handleEvents env l m = some m') : m.sameControl m' := by
  induction l generalizing m with
  | nil => simp only [handleEvents] at h; cases h; exact Manager.sameControl_refl _
  | cons ev rest ih =>
    simp only [handleEvents] at h
    split at h
    · cases h
    · rename_i m1 h1
      exact Manager.sameControl_trans (handleEvent_sameControl env ev m m1 h1) (ih _ h)

/-! ## Puts and stops leave the rest of the registry alone -/

theorem putRule_rgt (env : Env) (name raw : String) (m : Manager) :
    (putRule env name raw m).2.rgt = m.rgt := rfl

theorem stopScaler_of_isSome (env : Env) (name : String) (m : Manager)
    (h : (m.rgt.Get name).isSome = true) :
    ∃ m', stopScaler env name m = some m' ∧ ∀ n, n ≠ name → m'.rgt.Get n = m.rgt.Get n := by
  unfold stopScaler
  simp only
  split
  · exact ⟨m, rfl, fun _ _ => rfl⟩
  · obtain ⟨w, hw⟩ := Option.isSome_iff_exists.1 h
    rw [hw]
    refine ⟨_, rfl, ?_⟩
    intro n hn
    simp [Manager.dropWorker, Registry.Get_Delete, hn]

/-! ## Starting and stopping one worker -/

theorem startScaler_not_owner (env : Env) (name data : String) (m : Manager)
    (h : (env.LocalIsWorker name).2.2 = false) : startScaler env name data m = some m := by
  unfold startScaler
  simp [h]

theorem startScaler_owner (env : Env) (name data providerID : String) (m : Manager)
    (h : (env.LocalIsWorker name).2.2 = true)
    (hp : (stringsSplitSlash name).get? 2 = some providerID) :
    startScaler env name data m =
      match env.GetBackend providerID with
      | none => some m
      | some backend => some (m.addWorker name (env.newScaler name data backend)) := by
  unfold startScaler
  simp only [h, hp, Bool.not_true, Bool.false_eq_true, if_false]

theorem startScaler_changed (env : Env) (name data : String) (m m' : Manager)
    (h : startScaler env name data m = some m') (hne : m' ≠ m) :
    (env.LocalIsWorker name).2.2 = true := by
  by_contra hn
  rw [startScaler_not_owner env name data m (by simpa using hn)] at h
  cases h
  exact hne rfl

theorem stopScaler_not_owner (env : Env) (name : String) (m : Manager)
    (h : (env.LocalIsWorker name).2.2 = false) : stopScaler env name m = some m := by
  unfold stopScaler
  simp [h]

theorem stopScaler_owner (env : Env) (name : String) (m : Manager) (w : Worker)
    (h : (env.LocalIsWorker name).2.2 = true) (hw : m.rgt.Get name = some w) :
    stopScaler env name m = some (m.dropWorker name w) := by
  unfold stopScaler
  simp only [h, hw, Bool.not_true, Bool.false_eq_true, if_false]

/-- C10. `startScaler` is a no-op on non-owners: when `LocalIsWorker(name)`
reports that the local node is not the owner, `startScaler` returns the
manager as it was (same registry, no worker started, nothing added to the
trace), and so does the dispatch of a Create event on that name; and whenever
`startScaler` changes anything, the local node is the owner. -/
theorem C10_startScaler_noop_on_non_owner (env : Env) (name data : String) (m : Manager) :
    ((env.LocalIsWorker name).2.2 = false → startScaler env name data m = some m)
    ∧ (∀ event : Event, event.IsCreate = true →
        (env.LocalIsWorker event.Kv.Key).2.2 = false → handleEvent env event m = some m)
    ∧ (∀ m', startScaler env name data m = some m' → m' ≠ m →
        (env.LocalIsWorker name).2.2 = true) := by
  refine ⟨startScaler_not_owner env name data m, ?_, startScaler_changed env name data m⟩
  intro event hc ho
  unfold handleEvent
  simp only [hc, if_true]
  exact startScaler_not_owner env _ _ m ho

/-- A run of C10's theorem: node `A` does not own the sample rule and
`startScaler` leaves the empty manager as it is. -/
theorem C10_startScaler_noop_on_non_owner_witness :
    startScaler (sampleEnv "A" "B" [sampleKv] none true) sampleKey "rule"
        ⟨⟨∅⟩, false, State.Active, 0, []⟩
      = some ⟨⟨∅⟩, false, State.Active, 0, []⟩ :=
  (C10_startScaler_noop_on_non_owner (sampleEnv "A" "B" [sampleKv] none true) sampleKey "rule"
    ⟨⟨∅⟩, false, State.Active, 0, []⟩).1 (by decide)

/-! ## Watch events -/

theorem Event.not_create_of_delete (event : Event) (h : event.Typ = EventType.DELETE) :
    event.IsCreate = false ∧ event.IsModify = false := by
  simp [Event.IsCreate, Event.IsModify, h]

theorem Event.not_create_of_modify (event : Event) (h : event.IsModify = true) :
    event.IsCreate = false := by
  simp only [Event.IsCreate, Event.IsModify, Bool.and_eq_true, decide_eq_true_eq] at h ⊢
  simp [h.1, h.2]

theorem handleEvent_delete (env : Env) (event : Event) (m : Manager)
    (h : event.Typ = EventType.DELETE) :
    handleEvent env event m =
      if (m.rgt.Get event.Kv.Key).isSome then stopScaler env event.Kv.Key m else some m := by
  unfold handleEvent
  simp [Event.not_create_of_delete event h, h]

theorem handleEvent_modify (env : Env) (event : Event) (m : Manager)
    (h : event.IsModify = true) :
    handleEvent env event m =
      if (m.rgt.Get event.Kv.Key).isSome then
        match stopScaler env event.Kv.Key m with
        | none => none
        | some m1 => startScaler env event.Kv.Key event.Kv.Value m1
      else some m := by
  unfold handleEvent
  simp [Event.not_create_of_modify event h, h]

/-- C8, the code at the failing input. Node `A` loaded the sample rule while
it owned it; the cluster now assigns the rule to `B`; the Delete event on the
rule is dispatched to `stopScaler`, whose ownership guard returns before
`s.Stop()` and `m.rgt.Delete(name)`: the rule stays in the registry of `A` and
no worker is stopped (the trace holds the start of the worker and nothing
more). -/
theorem C8_delete_leaves_non_owned_worker :
    ((NewManager (sampleEnv "A" "A" [sampleKv] none true) State.Active).bind
        (handleEvent (sampleEnv "A" "B" [] none true)
          ⟨EventType.DELETE, ⟨sampleKey, "", 0, 9⟩⟩)).map
      (fun m => ((m.rgt.Get sampleKey).isSome, m.trace.length))
      = some (true, 1) := by
  decide

/-- The dispatch of a Delete event, case by case: a registered rule the local
node owns has its worker stopped and its entry removed; a registered rule the
local node does not own is left as it is, by the guard of `stopScaler`; an
unregistered name changes nothing. -/
theorem handleEvent_delete_cases (env : Env) (event : Event) (m : Manager)
    (h : event.Typ = EventType.DELETE) :
    (∀ w, m.rgt.Get event.Kv.Key = some w → (env.LocalIsWorker event.Kv.Key).2.2 = true →
        handleEvent env event m = some (m.dropWorker event.Kv.Key w)
        ∧ (m.dropWorker event.Kv.Key w).trace
            = m.trace ++ [Effect.workerStop event.Kv.Key w]
        ∧ (m.dropWorker event.Kv.Key w).rgt.Get event.Kv.Key = none)
    ∧ (∀ w, m.rgt.Get event.Kv.Key = some w → (env.LocalIsWorker event.Kv.Key).2.2 = false →
        handleEvent env event m = some m)
    ∧ (m.rgt.Get event.Kv.Key = none → handleEvent env event m = some m) := by
  rw [handleEvent_delete env event m h]
  refine ⟨?_, ?_, ?_⟩
  · intro w hw ho
    rw [hw]
    exact ⟨stopScaler_owner env _ m w ho hw, rfl,
      by simp [Manager.dropWorker, Registry.Get_Delete]⟩
  · intro w hw ho
    rw [hw]
    exact stopScaler_not_owner env _ m ho
  · intro hn
    rw [hn]
    rfl

/-- C9, the claim as stated fails: node `A` owns and runs the sample rule; a
Modify event arrives while the metrics backend of the provider cannot be
obtained; the old worker is stopped and removed, and no new worker is
registered. -/
theorem C9_counterexample :
    ((NewManager (sampleEnv "A" "A" [sampleKv] none true) State.Active).bind
        (handleEvent (sampleEnv "A" "A" [] none false)
          ⟨EventType.PUT, ⟨sampleKey, "rule2", 5, 9⟩⟩)).map
      (fun m => ((m.rgt.Get sampleKey).isSome, m.trace.length))
      = some (false, 2) := by
  decide

/-- C9, amended. For a Modify event on a rule name that is in the registry of
the owning manager, the old worker is stopped and removed; then, if the metrics
backend of the rule's provider is obtained, a worker newly built from the
event's value is started and registered under the name, and if it is not
obtained the name is left out of the registry. A Modify event on a name that
is not in the registry leaves the manager as it was. -/
theorem C9_modify_event (env : Env) (event : Event) (m : Manager)
    (h : event.IsModify = true) :
    (∀ w providerID, m.rgt.Get event.Kv.Key = some w →
        (env.LocalIsWorker event.Kv.Key).2.2 = true →
        (stringsSplitSlash event.Kv.Key).get? 2 = some providerID →
        (∀ backend, env.GetBackend providerID = some backend →
          handleEvent env event m =
            some ((m.dropWorker event.Kv.Key w).addWorker event.Kv.Key
              (env.newScaler event.Kv.Key event.Kv.Value backend))
          ∧ ((m.dropWorker event.Kv.Key w).addWorker event.Kv.Key
              (env.newScaler event.Kv.Key event.Kv.Value backend)).trace
            = m.trace ++ [Effect.workerStop event.Kv.Key w,
                Effect.workerRun event.Kv.Key
                  (env.newScaler event.Kv.Key event.Kv.Value backend)]
          ∧ ((m.dropWorker event.Kv.Key w).addWorker event.Kv.Key
              (env.newScaler event.Kv.Key event.Kv.Value backend)).rgt.Get event.Kv.Key
            = some (Worker.scaler (env.newScaler event.Kv.Key event.Kv.Value backend)))
        ∧ (env.GetBackend providerID = none →
          handleEvent env event m = some (m.dropWorker event.Kv.Key w)
          ∧ (m.dropWorker event.Kv.Key w).rgt.Get event.Kv.Key = none))
    ∧ (m.rgt.Get event.Kv.Key = none → handleEvent env event m = some m) := by
  rw [handleEvent_modify env event m h]
  refine ⟨?_, ?_⟩
  · intro w providerID hw ho hp
    rw [hw]
    simp only [Option.isSome_some, if_true, stopScaler_owner env _ m w ho hw,
      startScaler_owner env _ _ providerID _ ho hp]
    refine ⟨?_, ?_⟩
    · intro backend hb
      rw [hb]
      simp [Manager.addWorker, Manager.dropWorker, Registry.Get_Set]
    · intro hb
      rw [hb]
      simp [Manager.dropWorker, Registry.Get_Delete]
  · intro hn
    rw [hn]
    rfl

/-- A run of C9's theorem: the owner of the sample rule handles a Modify event
with the body `rule2`; the registry then holds a worker built from `rule2`,
in `Idle`, in place of the old one, which was in `Pending`. -/
theorem C9_modify_event_witness :
    handleEvent (sampleEnv "A" "A" [] none true) ⟨EventType.PUT, ⟨sampleKey, "rule2", 5, 9⟩⟩
        sampleManager
      = some ((sampleManager.dropWorker sampleKey (Worker.scaler sampleScaler)).addWorker
          sampleKey ⟨sampleKey, "rule2", ⟨"p1"⟩, ⟨AlertPhase.Idle, 0, 0⟩, none⟩) :=
  (((C9_modify_event (sampleEnv "A" "A" [] none true)
      ⟨EventType.PUT, ⟨sampleKey, "rule2", 5, 9⟩⟩ sampleManager (by decide)).1
    (Worker.scaler sampleScaler) "p1" (by decide) (by decide) (by decide)).1
    ⟨"p1"⟩ (by decide)).1

/-! ## Rebalance -/

theorem putRule_of_putsSucceed (env : Env) (name raw : String) (m : Manager)
    (h : env.putsSucceed) :
    putRule env name raw m
      = (none, { m with clock := m.clock + 1, trace := m.trace ++ [Effect.put name raw none] }) := by
  have h0 : isRetryNeeded (env.Put (m.clock + 0) name raw).err = false := by
    rw [h _ _ _]
    rfl
  have h1 := doRetry_once (fun i => env.Put (m.clock + i) name raw) h0
  unfold putRule DoPut
  simp only [h1, h _ _ _]
  simp

theorem Registry.onlyScalers_Set (r : Registry) (n : String) (s : Scaler)
    (h : r.onlyScalers) : (r.Set n (Worker.scaler s)).onlyScalers := by
  intro n' w hw
  rw [Registry.Get_Set] at hw
  split_ifs at hw
  · cases hw; exact ⟨s, rfl⟩
  · exact h n' w hw

theorem Registry.onlyScalers_Delete (r : Registry) (n : String)
    (h : r.onlyScalers) : (r.Delete n).onlyScalers := by
  intro n' w hw
  rw [Registry.Get_Delete] at hw
  split_ifs at hw
  exact h n' w hw

theorem startScaler_frame (env : Env) (name data : String) (m m' : Manager)
    (h : startScaler env name data m = some m') :
    (∀ n, n ≠ name → m'.rgt.Get n = m.rgt.Get n)
    ∧ (m.rgt.onlyScalers → m'.rgt.onlyScalers)
    ∧ (∀ n, (m'.rgt.Get n).isSome = true →
        (m.rgt.Get n).isSome = true ∨ (env.LocalIsWorker n).2.2 = true) := by
  unfold startScaler at h
  split at h
  · cases h
    exact ⟨fun _ _ => rfl, id, fun _ hn => Or.inl hn⟩
  · rename_i ho
    split at h
    · cases h
    · split at h
      · cases h
        exact ⟨fun _ _ => rfl, id, fun _ hn => Or.inl hn⟩
      · cases h
        refine ⟨?_, fun hs => Registry.onlyScalers_Set _ _ _ hs, ?_⟩
        · intro n hn
          simp [Manager.addWorker, Registry.Get_Set, hn]
        · intro n hn
          by_cases e : n = name
          · right; subst e; simpa using ho
          · left; simpa [Manager.addWorker, Registry.Get_Set, e] using hn

theorem rebalanceItem_not_owned_scaler (env : Env) (ev : KeyValue) (m : Manager) (s : Scaler)
    (ho : (env.LocalIsWorker ev.Key).2.2 = false)
    (hg : m.rgt.Get ev.Key = some (Worker.scaler s)) :
    rebalanceItem env ev m =
      match env.marshal s.checkpoint with
      | none => some (m.setWorker ev.Key (Worker.scaler s.checkpoint))
      | some raw =>
        if (putRule env ev.Key raw (m.setWorker ev.Key (Worker.scaler s.checkpoint))).1.isSome
        then some (putRule env ev.Key raw (m.setWorker ev.Key (Worker.scaler s.checkpoint))).2
        else
          some ((putRule env ev.Key raw
              (m.setWorker ev.Key (Worker.scaler s.checkpoint))).2.dropWorker ev.Key
            (Worker.scaler s.checkpoint)) := by
  unfold rebalanceItem
  simp only [ho, hg, Bool.not_false, if_true]

theorem rebalanceItem_owned_absent (env : Env) (ev : KeyValue) (m : Manager)
    (ho : (env.LocalIsWorker ev.Key).2.2 = true) (hg : m.rgt.Get ev.Key = none) :
    rebalanceItem env ev m = startScaler env ev.Key ev.Value m := by
  unfold rebalanceItem
  simp [ho, hg]

theorem rebalanceItem_otherwise (env : Env) (ev : KeyValue) (m : Manager)
    (h : ((env.LocalIsWorker ev.Key).2.2 = true ∧ (m.rgt.Get ev.Key).isSome = true)
      ∨ ((env.LocalIsWorker ev.Key).2.2 = false ∧ m.rgt.Get ev.Key = none)) :
    rebalanceItem env ev m = some m := by
  unfold rebalanceItem
  rcases h with ⟨ho, hg⟩ | ⟨ho, hg⟩
  · obtain ⟨w, hw⟩ := Option.isSome_iff_exists.1 hg
    simp [ho, hw]
  · simp [ho, hg]

theorem rebalanceItem_frame (env : Env) (ev : KeyValue) (m m' : Manager)
    (h : rebalanceItem env ev m = some m') :
    ∀ n, n ≠ ev.Key → m'.rgt.Get n = m.rgt.Get n := by
  intro n hn
  cases ho : (env.LocalIsWorker ev.Key).2.2
  · cases hg : m.rgt.Get ev.Key with
    | none =>
      rw [rebalanceItem_otherwise env ev m (Or.inr ⟨ho, hg⟩)] at h
      cases h; rfl
    | some w =>
      cases w with
      | other k =>
        unfold rebalanceItem at h
        simp only [ho, hg, Bool.not_false, if_true] at h
        cases h; rfl
      | scaler s =>
        rw [rebalanceItem_not_owned_scaler env ev m s ho hg] at h
        split at h
        · cases h; simp [Manager.setWorker, Registry.Get_Set, hn]
        · split at h
          · cases h; rw [putRule_rgt]; simp [Manager.setWorker, Registry.Get_Set, hn]
          · cases h
            simp [Manager.dropWorker, putRule_rgt, Manager.setWorker, Registry.Get_Set,
              Registry.Get_Delete, hn]
  · cases hg : m.rgt.Get ev.Key with
    | none =>
      rw [rebalanceItem_owned_absent env ev m ho hg] at h
      exact (startScaler_frame env _ _ m m' h).1 n hn
    | some w =>
      rw [rebalanceItem_otherwise env ev m (Or.inl ⟨ho, by simp [hg]⟩)] at h
      cases h; rfl

theorem rebalanceItem_forward (env : Env) (ev : KeyValue) (m m' : Manager)
    (hput : env.putsSucceed) (hmar : env.marshals) (hs : m.rgt.onlyScalers)
    (h : rebalanceItem env ev m = some m') :
    m'.rgt.onlyScalers
    ∧ ((m'.rgt.Get ev.Key).isSome = true → (env.LocalIsWorker ev.Key).2.2 = true) := by
  cases ho : (env.LocalIsWorker ev.Key).2.2
  · cases hg : m.rgt.Get ev.Key with
    | none =>
      rw [rebalanceItem_otherwise env ev m (Or.inr ⟨ho, hg⟩)] at h
      cases h
      exact ⟨hs, by simp [hg]⟩
    | some w =>
      obtain ⟨s, rfl⟩ := hs _ _ hg
      rw [rebalanceItem_not_owned_scaler env ev m s ho hg] at h
      obtain ⟨raw, hraw⟩ := Option.isSome_iff_exists.1 (hmar s.checkpoint)
      simp only [hraw, putRule_of_putsSucceed env _ _ _ hput, Option.isSome_none,
        Bool.false_eq_true, if_false] at h
      cases h
      exact ⟨Registry.onlyScalers_Delete _ _ (Registry.onlyScalers_Set _ _ _ hs),
        by simp [Manager.dropWorker, Registry.Get_Delete]⟩
  · refine ⟨?_, fun _ => rfl⟩
    cases hg : m.rgt.Get ev.Key with
    | none =>
      rw [rebalanceItem_owned_absent env ev m ho hg] at h
      exact (startScaler_frame env _ _ m m' h).2.1 hs
    | some w =>
      rw [rebalanceItem_otherwise env ev m (Or.inl ⟨ho, by simp [hg]⟩)] at h
      cases h
      exact hs

theorem rebalanceItems_forward (env : Env) (l : List KeyValue) (m m' : Manager)
    (hput : env.putsSucceed) (hmar : env.marshals) (hs : m.rgt.onlyScalers)
    (h : rebalanceItems env l m = some m') :
    m'.rgt.onlyScalers
    ∧ (∀ n, (∀ kv ∈ l, kv.Key ≠ n) → m'.rgt.Get n = m.rgt.Get n)
    ∧ (∀ kv ∈ l, (m'.rgt.Get kv.Key).isSome = true → (env.LocalIsWorker kv.Key).2.2 = true) := by
  induction l generalizing m with
  | nil =>
    simp only [rebalanceItems] at h
    cases h
    exact ⟨hs, fun _ _ => rfl, fun kv hkv => absurd hkv (List.not_mem_nil _)⟩
  | cons ev rest ih =>
    simp only [rebalanceItems] at h
    split at h
    · cases h
    · rename_i m1 h1
      obtain ⟨hs1, hkey⟩ := rebalanceItem_forward env ev m m1 hput hmar hs h1
      have hfr := rebalanceItem_frame env ev m m1 h1
      obtain ⟨hs', hframe, hrest⟩ := ih m1 hs1 h
      refine ⟨hs', ?_, ?_⟩
      · intro n hn
        rw [hframe n (fun kv hkv => hn kv (List.mem_cons_of_mem _ hkv)),
          hfr n (fun e => hn ev (List.mem_cons_self _ _) e.symm)]
      · intro kv hkv hsome
        by_cases hex : ∃ kv' ∈ rest, kv'.Key = kv.Key
        · obtain ⟨kv', hin, hk⟩ := hex
          rw [← hk] at hsome ⊢
          exact hrest kv' hin hsome
        · have hno : ∀ kv' ∈ rest, kv'.Key ≠ kv.Key := fun kv' hin e => hex ⟨kv', hin, e⟩
          rcases List.mem_cons.1 hkv with rfl | hin
          · rw [hframe _ hno] at hsome
            exact hkey hsome
          · exact absurd rfl (hno kv hin)

theorem putRule_trace_of_ok (env : Env) (name raw : String) (m : Manager)
    (h : (putRule env name raw m).1 = none) :
    (putRule env name raw m).2.trace = m.trace ++ [Effect.put name raw none] := by
  unfold putRule at h ⊢
  simp only at h ⊢
  have he := doRetry_emitted (fun i => env.Put (m.clock + i) name raw)
  unfold DoPut at h ⊢
  rw [he, h]
  simp

theorem rebalanceItem_total (env : Env) (ev : KeyValue) (m : Manager)
    (hb : (env.LocalIsWorker ev.Key).2.2 = true →
      ∃ providerID backend, (stringsSplitSlash ev.Key).get? 2 = some providerID
        ∧ env.GetBackend providerID = some backend) :
    ∃ m', rebalanceItem env ev m = some m'
      ∧ ((env.LocalIsWorker ev.Key).2.2 = true → (m'.rgt.Get ev.Key).isSome = true) := by
  cases ho : (env.LocalIsWorker ev.Key).2.2
  · have hno : ∀ m' : Manager, (false = true → (m'.rgt.Get ev.Key).isSome = true) :=
      fun _ hf => absurd hf (by decide)
    cases hg : m.rgt.Get ev.Key with
    | none => exact ⟨m, rebalanceItem_otherwise env ev m (Or.inr ⟨ho, hg⟩), hno m⟩
    | some w =>
      cases w with
      | other k =>
        refine ⟨m, ?_, hno m⟩
        unfold rebalanceItem
        simp only [ho, hg, Bool.not_false, if_true]
      | scaler s =>
        rw [rebalanceItem_not_owned_scaler env ev m s ho hg]
        split
        · exact ⟨_, rfl, hno _⟩
        · split
          · exact ⟨_, rfl, hno _⟩
          · exact ⟨_, rfl, hno _⟩
  · cases hg : m.rgt.Get ev.Key with
    | none =>
      obtain ⟨providerID, backend, hp, hbk⟩ := hb ho
      rw [rebalanceItem_owned_absent env ev m ho hg,
        startScaler_owner env _ _ providerID m ho hp, hbk]
      exact ⟨_, rfl, fun _ => by simp [Manager.addWorker, Registry.Get_Set]⟩
    | some w =>
      exact ⟨m, rebalanceItem_otherwise env ev m (Or.inl ⟨ho, by simp [hg]⟩),
        fun _ => by simp [hg]⟩

theorem rebalanceItem_keeps_owned (env : Env) (ev : KeyValue) (m m' : Manager)
    (h : rebalanceItem env ev m = some m') (n : String)
    (ho : (env.LocalIsWorker n).2.2 = true) (hn : (m.rgt.Get n).isSome = true) :
    (m'.rgt.Get n).isSome = true := by
  by_cases e : n = ev.Key
  · subst e
    rw [rebalanceItem_otherwise env ev m (Or.inl ⟨ho, hn⟩)] at h
    cases h
    exact hn
  · rw [rebalanceItem_frame env ev m m' h n e]
    exact hn

theorem rebalanceItems_total (env : Env) (l : List KeyValue) (m : Manager)
    (hb : ∀ kv ∈ l, (env.LocalIsWorker kv.Key).2.2 = true →
      ∃ providerID backend, (stringsSplitSlash kv.Key).get? 2 = some providerID
        ∧ env.GetBackend providerID = some backend) :
    ∃ m', rebalanceItems env l m = some m'
      ∧ (∀ n, (env.LocalIsWorker n).2.2 = true → (m.rgt.Get n).isSome = true →
          (m'.rgt.Get n).isSome = true)
      ∧ (∀ kv ∈ l, (env.LocalIsWorker kv.Key).2.2 = true → (m'.rgt.Get kv.Key).isSome = true) := by
  induction l generalizing m with
  | nil => exact ⟨m, rfl, fun _ _ h => h, fun kv hkv => absurd hkv (List.not_mem_nil _)⟩
  | cons ev rest ih =>
    obtain ⟨m1, h1, hkey⟩ := rebalanceItem_total env ev m (hb ev (List.mem_cons_self _ _))
    obtain ⟨m', h', hkeep, hrest⟩ := ih m1 (fun kv hkv => hb kv (List.mem_cons_of_mem _ hkv))
    refine ⟨m', by simp only [rebalanceItems, h1, h'], ?_, ?_⟩
    · intro n ho hn
      exact hkeep n ho (rebalanceItem_keeps_owned env ev m m1 h1 n ho hn)
    · intro kv hkv ho
      rcases List.mem_cons.1 hkv with rfl | hin
      · exact hkeep _ ho (hkey ho)
      · exact hrest kv hin ho

theorem rebalance_of_listing (env : Env) (m : Manager) (resp : GetResponse)
    (he : (getScalers env m).err = none) (hr : (getScalers env m).result = some resp) :
    rebalance env m = rebalanceItems env resp.Kvs (m.afterCall (getScalers env m)) := by
  unfold rebalance
  simp only [he, hr]

/-- C7, the claim as stated fails. First run: node `A` owns the listed sample
rule and does not run it, the metrics backend cannot be obtained, and after
`rebalance` the rule is still not in the registry. Second run: node `A` runs
the sample rule, which the cluster assigns to `B`, the checkpoint Put fails
with permission denied, and after `rebalance` the rule is still in the
registry of `A`, its worker not stopped. -/
theorem C7_counterexample :
    (rebalance (sampleEnv "A" "A" [sampleKv] none false) ⟨⟨∅⟩, false, State.Active, 0, []⟩).map
        (fun m => (m.rgt.Get sampleKey).isSome) = some false
    ∧ (rebalance (sampleEnv "A" "B" [sampleKv] (some GoError.ErrPermissionDenied) true)
          sampleManager).map (fun m => ((m.rgt.Get sampleKey).isSome, m.trace))
        = some (true, [Effect.put sampleKey "rule" (some GoError.ErrPermissionDenied),
            Effect.errCh GoError.ErrPermissionDenied]) := by
  decide

/-- C7, amended. For a key `ev` listed by the range-Get, the goroutine of
`rebalance` does the following. (i) If the rule is not owned locally and the
registry holds a Scaler for it, the worker's current alert state is written
into its `Alert` field and the marshalled rule is Put at the rule's key; if the
Put returns no error the worker is stopped and removed from the registry, and
if it returns an error the worker is left running and registered. (ii) If the
rule is owned locally and not in the registry, `startScaler` runs: with the
provider's metrics backend obtained a new worker is started and registered,
without it nothing changes. (iii) Otherwise the manager is left as it was.
Consequently, when every Put and every marshal succeeds, the registry holds
only Scalers and the backend of every owned listed rule is obtained,
`rebalance` returns and afterwards each listed rule is in the registry if and
only if `LocalIsWorker` reports it as owned by this node. -/
theorem C7_rebalance_postcondition (env : Env) (ev : KeyValue) (m : Manager) :
    (∀ s raw, (env.LocalIsWorker ev.Key).2.2 = false →
        m.rgt.Get ev.Key = some (Worker.scaler s) →
        env.marshal s.checkpoint = some raw →
        s.checkpoint.Alert = some s.alert
        ∧ ((putRule env ev.Key raw (m.setWorker ev.Key (Worker.scaler s.checkpoint))).1 = none →
            rebalanceItem env ev m =
              some ((putRule env ev.Key raw
                  (m.setWorker ev.Key (Worker.scaler s.checkpoint))).2.dropWorker ev.Key
                (Worker.scaler s.checkpoint))
            ∧ ((putRule env ev.Key raw
                  (m.setWorker ev.Key (Worker.scaler s.checkpoint))).2.dropWorker ev.Key
                (Worker.scaler s.checkpoint)).trace
              = m.trace ++ [Effect.put ev.Key raw none,
                  Effect.workerStop ev.Key (Worker.scaler s.checkpoint)]
            ∧ ((putRule env ev.Key raw
                  (m.setWorker ev.Key (Worker.scaler s.checkpoint))).2.dropWorker ev.Key
                (Worker.scaler s.checkpoint)).rgt.Get ev.Key = none)
        ∧ (∀ e, (putRule env ev.Key raw
              (m.setWorker ev.Key (Worker.scaler s.checkpoint))).1 = some e →
            rebalanceItem env ev m =
              some (putRule env ev.Key raw (m.setWorker ev.Key (Worker.scaler s.checkpoint))).2
            ∧ (putRule env ev.Key raw
                (m.setWorker ev.Key (Worker.scaler s.checkpoint))).2.rgt.Get ev.Key
              = some (Worker.scaler s.checkpoint)))
    ∧ (∀ providerID, (env.LocalIsWorker ev.Key).2.2 = true → m.rgt.Get ev.Key = none →
        (stringsSplitSlash ev.Key).get? 2 = some providerID →
        (∀ backend, env.GetBackend providerID = some backend →
          rebalanceItem env ev m
            = some (m.addWorker ev.Key (env.newScaler ev.Key ev.Value backend))
          ∧ (m.addWorker ev.Key (env.newScaler ev.Key ev.Value backend)).rgt.Get ev.Key
            = some (Worker.scaler (env.newScaler ev.Key ev.Value backend))
          ∧ (m.addWorker ev.Key (env.newScaler ev.Key ev.Value backend)).trace
            = m.trace ++ [Effect.workerRun ev.Key (env.newScaler ev.Key ev.Value backend)])
        ∧ (env.GetBackend providerID = none → rebalanceItem env ev m = some m))
    ∧ ((((env.LocalIsWorker ev.Key).2.2 = true ∧ (m.rgt.Get ev.Key).isSome = true)
          ∨ ((env.LocalIsWorker ev.Key).2.2 = false ∧ m.rgt.Get ev.Key = none)) →
        rebalanceItem env ev m = some m)
    ∧ (∀ resp, env.putsSucceed → env.marshals → m.rgt.onlyScalers →
        (getScalers env m).err = none → (getScalers env m).result = some resp →
        (∀ kv ∈ resp.Kvs, (env.LocalIsWorker kv.Key).2.2 = true →
          ∃ providerID backend, (stringsSplitSlash kv.Key).get? 2 = some providerID
            ∧ env.GetBackend providerID = some backend) →
        ∃ m', rebalance env m = some m'
          ∧ ∀ kv ∈ resp.Kvs,
              ((m'.rgt.Get kv.Key).isSome = true ↔ (env.LocalIsWorker kv.Key).2.2 = true)) := by
  refine ⟨?_, ?_, rebalanceItem_otherwise env ev m, ?_⟩
  · intro s raw ho hg hraw
    have hform := rebalanceItem_not_owned_scaler env ev m s ho hg
    rw [hraw] at hform
    refine ⟨rfl, ?_, ?_⟩
    · intro hok
      simp only [hok, Option.isSome_none, Bool.false_eq_true, if_false] at hform
      refine ⟨hform, ?_, ?_⟩
      · simp only [Manager.dropWorker, putRule_trace_of_ok env _ _ _ hok]
        simp [Manager.setWorker]
      · simp [Manager.dropWorker, Registry.Get_Delete]
    · intro e herr
      simp only [herr, Option.isSome_some, if_true] at hform
      refine ⟨hform, ?_⟩
      rw [putRule_rgt]
      simp [Manager.setWorker, Registry.Get_Set]
  · intro providerID ho hg hp
    rw [rebalanceItem_owned_absent env ev m ho hg, startScaler_owner env _ _ providerID m ho hp]
    refine ⟨?_, ?_⟩
    · intro backend hb
      rw [hb]
      exact ⟨rfl, by simp [Manager.addWorker, Registry.Get_Set], rfl⟩
    · intro hb
      rw [hb]
  · intro resp hput hmar hs he hr hb
    obtain ⟨m', hm', _, hback⟩ :=
      rebalanceItems_total env resp.Kvs (m.afterCall (getScalers env m)) hb
    refine ⟨m', by rw [rebalance_of_listing env m resp he hr, hm'], ?_⟩
    intro kv hkv
    have hs1 : (m.afterCall (getScalers env m)).rgt.onlyScalers := hs
    exact ⟨(rebalanceItems_forward env resp.Kvs _ m' hput hmar hs1 hm').2.2 kv hkv,
      hback kv hkv⟩

/-- A run of C7's theorem: node `A` runs the sample rule, which the cluster
assigns to `B`, and the Put succeeds; the rule is Put with the alert state,
the worker stopped and the entry removed. -/
theorem C7_rebalance_postcondition_witness :
    rebalanceItem (sampleEnv "A" "B" [sampleKv] none true) sampleKv sampleManager =
      some ((putRule (sampleEnv "A" "B" [sampleKv] none true) sampleKey "rule"
          (sampleManager.setWorker sampleKey (Worker.scaler sampleScaler.checkpoint))).2.dropWorker
        sampleKey (Worker.scaler sampleScaler.checkpoint))
    ∧ ((putRule (sampleEnv "A" "B" [sampleKv] none true) sampleKey "rule"
          (sampleManager.setWorker sampleKey (Worker.scaler sampleScaler.checkpoint))).2.dropWorker
        sampleKey (Worker.scaler sampleScaler.checkpoint)).trace
      = sampleManager.trace ++ [Effect.put sampleKey "rule" none,
          Effect.workerStop sampleKey (Worker.scaler sampleScaler.checkpoint)]
    ∧ ((putRule (sampleEnv "A" "B" [sampleKv] none true) sampleKey "rule"
          (sampleManager.setWorker sampleKey (Worker.scaler sampleScaler.checkpoint))).2.dropWorker
        sampleKey (Worker.scaler sampleScaler.checkpoint)).rgt.Get sampleKey = none :=
  ((C7_rebalance_postcondition (sampleEnv "A" "B" [sampleKv] none true) sampleKv
      sampleManager).1 sampleScaler "rule" (by decide) (by decide) (by decide)).2.1 (by decide)

/-! ## Load, and ownership across two nodes -/

theorem CheckKey_rgt (env : Env) (key : String) (m m' : Manager) (b : Bool)
    (h : CheckKey env key m = some (b, m')) : m'.rgt = m.rgt := by
  unfold CheckKey at h
  simp only at h
  split at h
  · cases h; rfl
  · split at h
    · cases h
    · split at h <;> cases h <;> rfl

theorem loadItem_owned (env : Env) (ev : KeyValue) (m m' : Manager)
    (h : loadItem env ev m = some m') (n : String) (hn : (m'.rgt.Get n).isSome = true) :
    (m.rgt.Get n).isSome = true ∨ (env.LocalIsWorker n).2.2 = true := by
  unfold loadItem at h
  simp only at h
  split at h
  · cases h
  · split at h
    · cases h
    · rename_i ok m1 hc
      have h1 := CheckKey_rgt env _ _ _ _ hc
      split at h
      · cases h
        left
        rw [← h1]
        exact hn
      · rw [← h1]
        exact (startScaler_frame env _ _ m1 m' h).2.2 n hn

theorem loadItems_owned (env : Env) (l : List KeyValue) (m m' : Manager)
    (h : loadItems env l m = some m') (n : String) (hn : (m'.rgt.Get n).isSome = true) :
    (m.rgt.Get n).isSome = true ∨ (env.LocalIsWorker n).2.2 = true := by
  induction l generalizing m with
  | nil => simp only [loadItems] at h; cases h; exact Or.inl hn
  | cons ev rest ih =>
    simp only [loadItems] at h
    split at h
    · cases h
    · rename_i m1 h1
      rcases ih m1 h with h2 | h2
      · exact loadItem_owned env ev m m1 h1 n h2
      · exact Or.inr h2

theorem load_owned (env : Env) (m m' : Manager) (h : load env m = some m') (n : String)
    (hn : (m'.rgt.Get n).isSome = true) :
    (m.rgt.Get n).isSome = true ∨ (env.LocalIsWorker n).2.2 = true := by
  unfold load at h
  simp only at h
  split at h
  · cases h; exact Or.inl hn
  · split at h
    · cases h
    · exact loadItems_owned env _ _ m' h n hn

theorem NewManager_owned (env : Env) (zero : State) (m : Manager)
    (h : NewManager env zero = some m) (n : String) (hn : (m.rgt.Get n).isSome = true) :
    (env.LocalIsWorker n).2.2 = true := by
  unfold NewManager at h
  split at h
  · cases h
  · rename_i m1 h1
    cases h
    rcases load_owned env _ m1 h1 n hn with h2 | h2
    · exact absurd h2 (by simp [Registry.Get])
    · exact h2

theorem rebalance_listed_owned (env : Env) (m m' : Manager) (resp : GetResponse)
    (hput : env.putsSucceed) (hmar : env.marshals) (hs : m.rgt.onlyScalers)
    (he : (getScalers env m).err = none) (hr : (getScalers env m).result = some resp)
    (h : rebalance env m = some m') :
    ∀ kv ∈ resp.Kvs, (m'.rgt.Get kv.Key).isSome = true → (env.LocalIsWorker kv.Key).2.2 = true := by
  rw [rebalance_of_listing env m resp he hr] at h
  have hs1 : (m.afterCall (getScalers env m)).rgt.onlyScalers := hs
  exact (rebalanceItems_forward env resp.Kvs _ m' hput hmar hs1 h).2.2

theorem rebalanceItems_frame (env : Env) (l : List KeyValue) (m m' : Manager)
    (h : rebalanceItems env l m = some m') (n : String) (hn : ∀ kv ∈ l, kv.Key ≠ n) :
    m'.rgt.Get n = m.rgt.Get n := by
  induction l generalizing m with
  | nil => simp only [rebalanceItems] at h; cases h; rfl
  | cons ev rest ih =>
    simp only [rebalanceItems] at h
    split at h
    · cases h
    · rename_i m1 h1
      rw [ih m1 h (fun kv hkv => hn kv (List.mem_cons_of_mem _ hkv)),
        rebalanceItem_frame env ev m m1 h1 n (fun e => hn ev (List.mem_cons_self _ _) e.symm)]

theorem rebalance_unlisted (env : Env) (m m' : Manager) (resp : GetResponse)
    (he : (getScalers env m).err = none) (hr : (getScalers env m).result = some resp)
    (h : rebalance env m = some m') (n : String) (hn : ∀ kv ∈ resp.Kvs, kv.Key ≠ n) :
    m'.rgt.Get n = m.rgt.Get n := by
  rw [rebalance_of_listing env m resp he hr] at h
  exact rebalanceItems_frame env resp.Kvs _ m' h n hn

theorem owners_exclusive (envA envB : Env) (A B : String) (owner : String → String)
    (hAB : A ≠ B)
    (hA : ∀ n, (envA.LocalIsWorker n).2.2 = decide (owner n = A))
    (hB : ∀ n, (envB.LocalIsWorker n).2.2 = decide (owner n = B)) (n : String) :
    ¬ ((envA.LocalIsWorker n).2.2 = true ∧ (envB.LocalIsWorker n).2.2 = true) := by
  rw [hA, hB]
  simp only [decide_eq_true_eq]
  rintro ⟨h1, h2⟩
  exact hAB (h1.symm.trans h2)

/-- C6, the claim as stated fails. Node `A` loaded the sample rule while it
owned it. The cluster now assigns the rule to `B`, and both nodes complete a
rebalance over the same KV contents, which list the rule; the checkpoint Put
of `A` fails with permission denied, so `A` keeps the rule, and `B`, which
loaded it as its owner, has it too. -/
theorem C6_counterexample :
    ((NewManager (sampleEnv "A" "A" [sampleKv] none true) State.Active).bind
        (rebalance (sampleEnv "A" "B" [sampleKv] (some GoError.ErrPermissionDenied) true))).map
      (fun m => (m.rgt.Get sampleKey).isSome) = some true
    ∧ ((NewManager (sampleEnv "B" "B" [sampleKv] none true) State.Active).bind
        (rebalance (sampleEnv "B" "B" [sampleKv] none true))).map
      (fun m => (m.rgt.Get sampleKey).isSome) = some true := by
  decide

/-- C6, amended. Let `owner` assign every rule name to one node, and let the
distinct nodes `A` and `B` compute `LocalIsWorker` from it. (a) The registry of
a manager that has just loaded holds only names its node owns, so two freshly
loaded managers share no name. (b) If both managers complete `rebalance` over
the same listing, with every Put and every marshal succeeding and registries
that hold only Scalers, no listed rule name is in both registries; the same
holds for a freshly loaded manager and a rebalanced one. (c) `rebalance` leaves
the registry entry of a name that is not listed as it was. -/
theorem C6_unique_ownership (envA envB : Env) (A B : String) (owner : String → String)
    (hAB : A ≠ B)
    (hA : ∀ n, (envA.LocalIsWorker n).2.2 = decide (owner n = A))
    (hB : ∀ n, (envB.LocalIsWorker n).2.2 = decide (owner n = B)) :
    (∀ zA zB mA mB, NewManager envA zA = some mA → NewManager envB zB = some mB →
        ∀ n, ¬ ((mA.rgt.Get n).isSome = true ∧ (mB.rgt.Get n).isSome = true))
    ∧ (∀ mA mB mA' mB' respA respB,
        envA.putsSucceed → envA.marshals → mA.rgt.onlyScalers →
        envB.putsSucceed → envB.marshals → mB.rgt.onlyScalers →
        (getScalers envA mA).err = none → (getScalers envA mA).result = some respA →
        (getScalers envB mB).err = none → (getScalers envB mB).result = some respB →
        respA.Kvs = respB.Kvs →
        rebalance envA mA = some mA' → rebalance envB mB = some mB' →
        ∀ kv ∈ respA.Kvs,
          ¬ ((mA'.rgt.Get kv.Key).isSome = true ∧ (mB'.rgt.Get kv.Key).isSome = true))
    ∧ (∀ zA mA mB mB' respB,
        NewManager envA zA = some mA →
        envB.putsSucceed → envB.marshals → mB.rgt.onlyScalers →
        (getScalers envB mB).err = none → (getScalers envB mB).result = some respB →
        rebalance envB mB = some mB' →
        ∀ kv ∈ respB.Kvs,
          ¬ ((mA.rgt.Get kv.Key).isSome = true ∧ (mB'.rgt.Get kv.Key).isSome = true))
    ∧ (∀ mA mA' respA,
        (getScalers envA mA).err = none → (getScalers envA mA).result = some respA →
        rebalance envA mA = some mA' →
        ∀ n, (∀ kv ∈ respA.Kvs, kv.Key ≠ n) → mA'.rgt.Get n = mA.rgt.Get n) := by
  have hex := owners_exclusive envA envB A B owner hAB hA hB
  refine ⟨?_, ?_, ?_, ?_⟩
  · intro zA zB mA mB hmA hmB n hn
    exact hex n ⟨NewManager_owned envA zA mA hmA n hn.1, NewManager_owned envB zB mB hmB n hn.2⟩
  · intro mA mB mA' mB' respA respB hpA hmA hsA hpB hmB hsB heA hrA heB hrB hkvs hA' hB' kv hkv hn
    exact hex kv.Key
      ⟨rebalance_listed_owned envA mA mA' respA hpA hmA hsA heA hrA hA' kv hkv hn.1,
        rebalance_listed_owned envB mB mB' respB hpB hmB hsB heB hrB hB' kv (hkvs ▸ hkv) hn.2⟩
  · intro zA mA mB mB' respB hmA hpB hmB hsB heB hrB hB' kv hkv hn
    exact hex kv.Key
      ⟨NewManager_owned envA zA mA hmA kv.Key hn.1,
        rebalance_listed_owned envB mB mB' respB hpB hmB hsB heB hrB hB' kv hkv hn.2⟩
  · intro mA mA' respA heA hrA hA' n hn
    exact rebalance_unlisted envA mA mA' respA heA hrA hA' n hn

theorem sampleEnv_putsSucceed (me owner : String) (kvs : List KeyValue) (backendOk : Bool) :
    (sampleEnv me owner kvs none backendOk).putsSucceed := fun _ _ _ => rfl

theorem sampleEnv_marshals (me owner : String) (kvs : List KeyValue) (putErr : Option GoError)
    (backendOk : Bool) : (sampleEnv me owner kvs putErr backendOk).marshals := fun _ => rfl

theorem empty_onlyScalers : (⟨∅⟩ : Registry).onlyScalers := by
  intro n w h
  simp [Registry.Get] at h

theorem sampleManager_onlyScalers : sampleManager.rgt.onlyScalers :=
  Registry.onlyScalers_Set _ _ _ empty_onlyScalers

/-- A run of C6's theorem: node `A` runs the sample rule, which the cluster
assigns to `B`; both nodes rebalance over the listing of that rule with
succeeding Puts; afterwards the rule is in the registry of `B` only. -/
theorem C6_unique_ownership_witness :
    ¬ (((⟨⟨∅⟩, false, State.Active, 4,
          [Effect.put sampleKey "rule" none,
            Effect.workerStop sampleKey (Worker.scaler sampleScaler.checkpoint)]⟩ :
          Manager).rgt.Get sampleKv.Key).isSome = true
      ∧ (((⟨⟨∅⟩, false, State.Active, 1, []⟩ : Manager).addWorker sampleKey
          ⟨sampleKey, "rule", ⟨"p1"⟩, ⟨AlertPhase.Idle, 0, 0⟩, none⟩).rgt.Get
            sampleKv.Key).isSome = true) :=
  (C6_unique_ownership (sampleEnv "A" "B" [sampleKv] none true)
      (sampleEnv "B" "B" [sampleKv] none true) "A" "B" (fun _ => "B") (by decide)
      (fun _ => rfl) (fun _ => rfl)).2.1
    sampleManager ⟨⟨∅⟩, false, State.Active, 0, []⟩
    ⟨⟨∅⟩, false, State.Active, 4,
      [Effect.put sampleKey "rule" none,
        Effect.workerStop sampleKey (Worker.scaler sampleScaler.checkpoint)]⟩
    ((⟨⟨∅⟩, false, State.Active, 1, []⟩ : Manager).addWorker sampleKey
      ⟨sampleKey, "rule", ⟨"p1"⟩, ⟨AlertPhase.Idle, 0, 0⟩, none⟩)
    ⟨[sampleKv], 1⟩ ⟨[sampleKv], 1⟩
    (sampleEnv_putsSucceed _ _ _ _) (sampleEnv_marshals _ _ _ _ _) sampleManager_onlyScalers
    (sampleEnv_putsSucceed _ _ _ _) (sampleEnv_marshals _ _ _ _ _) empty_onlyScalers
    (by decide) (by decide) (by decide) (by decide) rfl rfl rfl
    sampleKv (List.mem_cons_self _ _)

/-! ## The watch loop -/

theorem runStep_other_error (env : Env) (s : RunState) (err : GoError) (events : List Event)
    (h : err ≠ GoError.ErrNoLeader) :
    runStep env s (Received.watchResp ⟨some err, events⟩)
      = some { s with m := { s.m with trace := s.m.trace ++ [Effect.errCh err] } } := by
  simp [runStep, h]

theorem runStep_noLeader (env : Env) (s : RunState) (events : List Event) :
    runStep env s (Received.watchResp ⟨some GoError.ErrNoLeader, events⟩)
      = if s.retryCount ≤ DefaultEtcdRetryCount then
          some { s with watches := s.watches + 1, retryCount := s.retryCount + 1,
                        sleeps := s.sleeps + 1 }
        else
          some { s with m := { s.m with
            trace := s.m.trace ++ [Effect.errCh GoError.ErrNoLeader] } } := by
  simp [runStep]

theorem runStep_retry_bound (env : Env) (s s' : RunState) (r : Received)
    (h : runStep env s r = some s')
    (hinv : s.retryCount + 1 = s.watches ∧ s.retryCount ≤ DefaultEtcdRetryCount + 1) :
    s'.retryCount + 1 = s'.watches ∧ s'.retryCount ≤ DefaultEtcdRetryCount + 1 := by
  cases r with
  | stop => simp only [runStep] at h; cases h; exact hinv
  | watchResp w =>
    simp only [runStep] at h
    split at h
    · split at h
      · rename_i hc
        cases h
        exact ⟨by simp only; omega, by simp only; omega⟩
      · cases h; exact hinv
    · split at h
      · cases h
      · cases h; exact hinv

theorem runLoop_retry_bound (env : Env) (received : List Received) (s s' : RunState)
    (h : runLoop env received s = some s')
    (hinv : s.retryCount + 1 = s.watches ∧ s.retryCount ≤ DefaultEtcdRetryCount + 1) :
    s'.retryCount + 1 = s'.watches ∧ s'.retryCount ≤ DefaultEtcdRetryCount + 1 := by
  induction received generalizing s with
  | nil => simp only [runLoop] at h; cases h; exact hinv
  | cons r rest ih =>
    simp only [runLoop] at h
    split at h
    · cases h; exact hinv
    · split at h
      · cases h
      · rename_i s1 h1
        exact ih s1 h (runStep_retry_bound env s s1 r h1 hinv)

/-- The watch is re-established at most `DefaultEtcdRetryCount + 1` times over
the life of `Run`, whatever the loop receives. -/
theorem Run_reestablished_le (env : Env) (received : List Received) (m : Manager)
    (s : RunState) (h : Run env received m = some s) :
    s.reestablished ≤ DefaultEtcdRetryCount + 1 := by
  have hb := runLoop_retry_bound env received _ s h ⟨rfl, Nat.zero_le _⟩
  unfold RunState.reestablished
  omega

/-- C11, the code at the failing input. The watch channel returns `ErrNoLeader`
five times in a row: `Run` re-establishes the watch four times, one more than
`DefaultEtcdRetryCount = 3`, and only the fifth error is sent on `ErrCh`; with
four in a row nothing is sent on `ErrCh` at all. -/
theorem C11_watch_reestablished_four_times :
    DefaultEtcdRetryCount = 3
    ∧ (Run (sampleEnv "A" "A" [] none true)
          (List.replicate 5 (watchError GoError.ErrNoLeader)) sampleManager).map
        (fun s => (s.reestablished, s.retryCount, s.m.trace))
      = some (4, 4, [Effect.errCh GoError.ErrNoLeader])
    ∧ (Run (sampleEnv "A" "A" [] none true)
          (List.replicate 4 (watchError GoError.ErrNoLeader)) sampleManager).map
        (fun s => (s.reestablished, s.retryCount, s.m.trace))
      = some (4, 4, []) := by
  decide

/-! ## The supervisor goroutine -/

theorem supervisor_reloads_once (n : Nat) :
    (supervisor (List.replicate (n + 1) Signal.reload)).count SupervisorAction.fasReload = 1
    ∧ (supervisor (List.replicate (n + 1) Signal.reload)).count SupervisorAction.fahReload
        = 1 := by
  simp [List.replicate_succ, supervisor]

/-- C16, the code at the failing input. Two values arrive on the reload
channel and no stop signal: the supervisor goroutine calls `Reload` on the
autoscale manager and on the autoheal manager once each, for the first value,
and not for the second. -/
theorem C16_second_reload_not_acted_on :
    supervisor [Signal.reload, Signal.reload]
      = [SupervisorAction.fasReload, SupervisorAction.fahReload]
    ∧ (supervisor [Signal.reload, Signal.reload]).count SupervisorAction.fasReload = 1
    ∧ (supervisor [Signal.reload, Signal.reload]).count SupervisorAction.fahReload = 1 := by
  decide

/-! ## Rule validation -/

theorem validateActions_ne_none (lib : Model.Lib) (l : List (String × Model.ActionHTTP)) :
    Model.validateActions lib l ≠ none ↔ ∃ a ∈ l, lib.actionValidate a.2 ≠ none := by
  induction l with
  | nil => simp [Model.validateActions]
  | cons a rest ih =>
    simp only [Model.validateActions, List.mem_cons, exists_eq_or_imp]
    cases h : lib.actionValidate a.2 with
    | none => simpa using ih
    | some err => simp

theorem Lib_parses_ok (lib : Model.Lib) (s : String) (h : lib.parses s = true) :
    ∃ d, lib.ParseDuration s = Except.ok d := by
  unfold Model.Lib.parses at h
  split at h
  · exact ⟨_, by assumption⟩
  · cases h

theorem Lib_parses_error (lib : Model.Lib) (s : String) (h : lib.parses s = false) :
    ∃ e, lib.ParseDuration s = Except.error e := by
  unfold Model.Lib.parses at h
  split at h
  · cases h
  · exact ⟨_, by assumption⟩

/-- The outcome of `Validate` when every check passes. -/
theorem Validate_of_valid (lib : Model.Lib) (s : Model.Scaler)
    (h600 : lib.parses "600s" = true)
    (ha : Model.validateActions lib s.Actions = none) (hq : s.Query ≠ "")
    (hd : lib.parses s.Duration = true) (hi : lib.parses s.Interval = true)
    (hc : s.Cooldown ≠ "" → lib.parses s.Cooldown = true) :
    s.Validate lib
      = ({ s with ID := lib.HashMD5 s.Query,
                  Cooldown := if s.Cooldown = "" then "600s" else s.Cooldown }, none) := by
  obtain ⟨d1, h1⟩ := Lib_parses_ok lib _ hd
  obtain ⟨d2, h2⟩ := Lib_parses_ok lib _ hi
  unfold Model.Scaler.Validate
  simp only [ha, hq, if_false, h1, h2]
  by_cases hce : s.Cooldown = ""
  · obtain ⟨d3, h3⟩ := Lib_parses_ok lib _ h600
    simp [hce, h3]
  · obtain ⟨d3, h3⟩ := Lib_parses_ok lib _ (hc hce)
    simp [hce, h3]

/-- The outcome of `Validate` when some check fails: an error, and the scaler
as it was. -/
theorem Validate_of_invalid (lib : Model.Lib) (s : Model.Scaler)
    (h : Model.validateActions lib s.Actions ≠ none ∨ s.Query = ""
      ∨ lib.parses s.Duration = false ∨ lib.parses s.Interval = false
      ∨ (s.Cooldown ≠ "" ∧ lib.parses s.Cooldown = false)) :
    (s.Validate lib).1 = s ∧ (s.Validate lib).2 ≠ none := by
  unfold Model.Scaler.Validate
  cases ha : Model.validateActions lib s.Actions with
  | some err => simp
  | none =>
    simp only
    by_cases hq : s.Query = ""
    · simp [hq]
    · simp only [hq, if_false]
      cases hd : lib.ParseDuration s.Duration with
      | error e => simp
      | ok d1 =>
        simp only
        cases hi : lib.ParseDuration s.Interval with
        | error e => simp
        | ok d2 =>
          simp only
          have hpd : lib.parses s.Duration = true := by simp [Model.Lib.parses, hd]
          have hpi : lib.parses s.Interval = true := by simp [Model.Lib.parses, hi]
          rcases h with h | h | h | h | ⟨hne, hc⟩
          · exact absurd ha h
          · exact absurd h hq
          · rw [hpd] at h; cases h
          · rw [hpi] at h; cases h
          · obtain ⟨e, he⟩ := Lib_parses_error lib _ hc
            simp [hne, he]

theorem Validate_cases (lib : Model.Lib) (s : Model.Scaler) :
    (Model.validateActions lib s.Actions = none ∧ s.Query ≠ ""
      ∧ lib.parses s.Duration = true ∧ lib.parses s.Interval = true
      ∧ (s.Cooldown ≠ "" → lib.parses s.Cooldown = true))
    ∨ (Model.validateActions lib s.Actions ≠ none ∨ s.Query = ""
      ∨ lib.parses s.Duration = false ∨ lib.parses s.Interval = false
      ∨ (s.Cooldown ≠ "" ∧ lib.parses s.Cooldown = false)) := by
  by_cases ha : Model.validateActions lib s.Actions = none
  · by_cases hq : s.Query = ""
    · exact Or.inr (Or.inr (Or.inl hq))
    · cases hd : lib.parses s.Duration
      · exact Or.inr (Or.inr (Or.inr (Or.inl rfl)))
      · cases hi : lib.parses s.Interval
        · exact Or.inr (Or.inr (Or.inr (Or.inr (Or.inl rfl))))
        · by_cases hc : s.Cooldown ≠ "" ∧ lib.parses s.Cooldown = false
          · exact Or.inr (Or.inr (Or.inr (Or.inr (Or.inr hc))))
          · refine Or.inl ⟨ha, hq, rfl, rfl, fun hne => ?_⟩
            cases hp : lib.parses s.Cooldown
            · exact absurd ⟨hne, hp⟩ hc
            · rfl
  · exact Or.inr (Or.inl ha)

/-- C14. `Scaler.Validate` fails exactly on invalid rules. With
`time.ParseDuration` accepting `"600s"` and rejecting the empty string,
`Validate` returns an error if and only if some action fails its own
`Validate`, or `query` is empty, or `duration` does not parse, or `interval`
does not parse, or `cooldown` is non-empty and does not parse; so it returns
nil when all fields are valid, an empty cooldown is accepted, and an empty
duration or interval is rejected. -/
theorem C14_validate_fails_exactly_on_invalid (lib : Model.Lib) (s : Model.Scaler)
    (h600 : lib.parses "600s" = true) (hEmpty : lib.parses "" = false) :
    ((s.Validate lib).2 ≠ none ↔
      ((∃ a ∈ s.Actions, lib.actionValidate a.2 ≠ none) ∨ s.Query = ""
        ∨ lib.parses s.Duration = false ∨ lib.parses s.Interval = false
        ∨ (s.Cooldown ≠ "" ∧ lib.parses s.Cooldown = false)))
    ∧ ((∀ a ∈ s.Actions, lib.actionValidate a.2 = none) → s.Query ≠ "" →
        lib.parses s.Duration = true → lib.parses s.Interval = true → s.Cooldown = "" →
        (s.Validate lib).2 = none)
    ∧ (s.Duration = "" → (s.Validate lib).2 ≠ none)
    ∧ (s.Interval = "" → (s.Validate lib).2 ≠ none) := by
  have hiff : (s.Validate lib).2 ≠ none ↔
      (Model.validateActions lib s.Actions ≠ none ∨ s.Query = ""
        ∨ lib.parses s.Duration = false ∨ lib.parses s.Interval = false
        ∨ (s.Cooldown ≠ "" ∧ lib.parses s.Cooldown = false)) := by
    constructor
    · intro hne
      rcases Validate_cases lib s with ⟨ha, hq, hd, hi, hc⟩ | hbad
      · rw [Validate_of_valid lib s h600 ha hq hd hi hc] at hne
        exact absurd rfl hne
      · exact hbad
    · intro hbad
      exact (Validate_of_invalid lib s hbad).2
  refine ⟨?_, ?_, ?_, ?_⟩
  · rw [hiff, validateActions_ne_none]
  · intro ha hq hd hi hc
    have hact : Model.validateActions lib s.Actions = none := by
      by_contra hne
      obtain ⟨a, hin, hv⟩ := (validateActions_ne_none lib s.Actions).1 hne
      exact hv (ha a hin)
    rw [Validate_of_valid lib s h600 hact hq hd hi (fun hne => absurd hc hne)]
  · intro hd
    exact hiff.2 (Or.inr (Or.inr (Or.inl (by rw [hd]; exact hEmpty))))
  · intro hi
    exact hiff.2 (Or.inr (Or.inr (Or.inr (Or.inl (by rw [hi]; exact hEmpty)))))

/-- A run of C14's theorem: the sample rule, whose cooldown is empty, is
accepted. -/
theorem C14_validate_fails_exactly_on_invalid_witness :
    (Model.sampleRule.Validate Model.sampleLib).2 = none :=
  (C14_validate_fails_exactly_on_invalid Model.sampleLib Model.sampleRule (by decide)
    (by decide)).2.1 (by decide) (by decide) (by decide) (by decide) (by decide)

/-- C15. Postcondition of `Scaler.Validate`, with `time.ParseDuration`
accepting `"600s"`. When it returns nil, the scaler it leaves has
`ID = MD5(query)` whatever the ID was, `cooldown = "600s"` if the cooldown was
empty and the same cooldown otherwise, and every other field as before; a
second `Validate` on that scaler returns nil and changes nothing. When it
returns an error, the scaler is left as it was. -/
theorem C15_validate_postcondition (lib : Model.Lib) (s : Model.Scaler)
    (h600 : lib.parses "600s" = true) :
    ((s.Validate lib).2 = none →
        (s.Validate lib).1
          = { s with ID := lib.HashMD5 s.Query,
                     Cooldown := if s.Cooldown = "" then "600s" else s.Cooldown }
        ∧ (s.Validate lib).1.Validate lib = ((s.Validate lib).1, none))
    ∧ ((s.Validate lib).2 ≠ none → (s.Validate lib).1 = s) := by
  rcases Validate_cases lib s with ⟨ha, hq, hd, hi, hc⟩ | hbad
  · have hv := Validate_of_valid lib s h600 ha hq hd hi hc
    refine ⟨fun _ => ?_, fun hne => ?_⟩
    · rw [hv]
      refine ⟨rfl, ?_⟩
      have hc2 : (if s.Cooldown = "" then "600s" else s.Cooldown) ≠ "" := by
        split_ifs with hce
        · decide
        · exact hce
      have hp2 : lib.parses (if s.Cooldown = "" then "600s" else s.Cooldown) = true := by
        split_ifs with hce
        · exact h600
        · exact hc hce
      have h2 := Validate_of_valid lib
        { s with ID := lib.HashMD5 s.Query,
                 Cooldown := if s.Cooldown = "" then "600s" else s.Cooldown }
        h600 ha hq hd hi (fun _ => hp2)
      simp only [if_neg hc2] at h2
      exact h2
    · rw [hv] at hne
      exact absurd rfl hne
  · have hv := Validate_of_invalid lib s hbad
    exact ⟨fun he => absurd he hv.2, fun _ => hv.1⟩

/-- A run of C15's theorem: the sample rule comes back with the hash of its
query as ID, in place of the caller's, and with the default cooldown. -/
theorem C15_validate_postcondition_witness :
    (Model.sampleRule.Validate Model.sampleLib).1
        = ⟨"x>0", "3m", "", "30s", [("a1", ⟨"http://sink", "POST", [], ""⟩)], [], true,
            "md5:x>0", none, "600s"⟩
    ∧ (Model.sampleRule.Validate Model.sampleLib).1.Validate Model.sampleLib
        = ((Model.sampleRule.Validate Model.sampleLib).1, none) :=
  (C15_validate_postcondition Model.sampleLib Model.sampleRule (by decide)).1 (by decide)

/-! ## Load and the provider key -/

theorem errCh_not_put (l : List GoError) : (l.map Effect.errCh).filter Effect.isPut = [] := by
  induction l with
  | nil => rfl
  | cons e rest ih => simp [List.filter, Effect.isPut]

theorem afterCall_puts {R : Type} (m : Manager) (c : Call R) : (m.afterCall c).puts = m.puts := by
  simp [Manager.afterCall, Manager.puts, List.filter_append, errCh_not_put]

theorem CheckKey_true_iff (env : Env) (key : String) (m m' : Manager) (b : Bool)
    (h : CheckKey env key m = some (b, m')) :
    b = true ↔
      ((DoGet (fun i => env.Get (m.clock + i) key GetOpt.countOnly)).err = none
        ∧ ∃ resp, (DoGet (fun i => env.Get (m.clock + i) key GetOpt.countOnly)).result = some resp
            ∧ resp.Count = 1) := by
  unfold CheckKey at h
  simp only at h
  split at h
  · rename_i e he
    cases h
    simp [he]
  · rename_i he
    split at h
    · cases h
    · rename_i resp hr
      split at h
      · rename_i hc
        cases h
        simp [he, hr, hc]
      · rename_i hc
        cases h
        simp [he, hr, hc]

theorem CheckKey_puts (env : Env) (key : String) (m m' : Manager) (b : Bool)
    (h : CheckKey env key m = some (b, m')) : m'.puts = m.puts := by
  unfold CheckKey at h
  simp only at h
  split at h
  · cases h; exact afterCall_puts _ _
  · split at h
    · cases h
    · split at h <;> cases h <;> exact afterCall_puts _ _

theorem startScaler_added (env : Env) (name data : String) (m m' : Manager)
    (h : startScaler env name data m = some m') :
    m'.puts = m.puts
    ∧ ∀ n, (m'.rgt.Get n).isSome = true →
        (m.rgt.Get n).isSome = true ∨ (n = name ∧ (env.LocalIsWorker name).2.2 = true) := by
  unfold startScaler at h
  split at h
  · cases h
    exact ⟨rfl, fun _ hn => Or.inl hn⟩
  · rename_i ho
    split at h
    · cases h
    · split at h
      · cases h
        exact ⟨rfl, fun _ hn => Or.inl hn⟩
      · cases h
        refine ⟨by simp [Manager.puts, Manager.addWorker, List.filter_append, Effect.isPut], ?_⟩
        intro n hn
        by_cases e : n = name
        · right; exact ⟨e, by simpa using ho⟩
        · left; simpa [Manager.addWorker, Registry.Get_Set, e] using hn

/-- The provider key of the rule `name` was found by a `CheckKey`: the third
segment of the name is `providerID` and `CheckKey` on `/clouds/<providerID>`
returned true at some point. -/
theorem loadItem_cases (env : Env) (ev : KeyValue) (m : Manager) (providerID : String)
    (hp : (stringsSplitSlash ev.Key).get? 2 = some providerID) :
    (∀ m1, CheckKey env (Path DefaultCloudPrefix providerID) m = some (false, m1) →
        loadItem env ev m = some m1)
    ∧ (∀ m1, CheckKey env (Path DefaultCloudPrefix providerID) m = some (true, m1) →
        loadItem env ev m = startScaler env ev.Key ev.Value m1) := by
  constructor
  · intro m1 hc
    unfold loadItem
    simp only [hp, hc, Bool.not_false, if_true]
  · intro m1 hc
    unfold loadItem
    simp only [hp, hc, Bool.not_true, Bool.false_eq_true, if_false]

theorem loadItem_added (env : Env) (ev : KeyValue) (m m' : Manager)
    (h : loadItem env ev m = some m') :
    m'.puts = m.puts
    ∧ ∀ n, (m'.rgt.Get n).isSome = true →
        (m.rgt.Get n).isSome = true
        ∨ (n = ev.Key ∧ (env.LocalIsWorker n).2.2 = true
          ∧ ∃ providerID m0 m1, (stringsSplitSlash n).get? 2 = some providerID
              ∧ CheckKey env (Path DefaultCloudPrefix providerID) m0 = some (true, m1)) := by
  unfold loadItem at h
  simp only at h
  split at h
  · cases h
  · rename_i providerID hp
    split at h
    · cases h
    · rename_i ok m1 hc
      have hr := CheckKey_rgt env _ _ _ _ hc
      have hpu := CheckKey_puts env _ _ _ _ hc
      split at h
      · cases h
        exact ⟨hpu, fun n hn => Or.inl (by rw [← hr]; exact hn)⟩
      · rename_i hok
        have hok' : ok = true := by simpa using hok
        subst hok'
        obtain ⟨hp2, hadd⟩ := startScaler_added env _ _ m1 m' h
        refine ⟨hp2.trans hpu, ?_⟩
        intro n hn
        rcases hadd n hn with h1 | ⟨rfl, ho⟩
        · left; rw [← hr]; exact h1
        · right; exact ⟨rfl, ho, providerID, m, m1, hp, hc⟩

theorem loadItems_added (env : Env) (l : List KeyValue) (m m' : Manager)
    (h : loadItems env l m = some m') :
    m'.puts = m.puts
    ∧ ∀ n, (m'.rgt.Get n).isSome = true →
        (m.rgt.Get n).isSome = true
        ∨ ((∃ ev ∈ l, ev.Key = n) ∧ (env.LocalIsWorker n).2.2 = true
          ∧ ∃ providerID m0 m1, (stringsSplitSlash n).get? 2 = some providerID
              ∧ CheckKey env (Path DefaultCloudPrefix providerID) m0 = some (true, m1)) := by
  induction l generalizing m with
  | nil =>
    simp only [loadItems] at h
    cases h
    exact ⟨rfl, fun _ hn => Or.inl hn⟩
  | cons ev rest ih =>
    simp only [loadItems] at h
    split at h
    · cases h
    · rename_i m1 h1
      obtain ⟨hp1, ha1⟩ := loadItem_added env ev m m1 h1
      obtain ⟨hp2, ha2⟩ := ih m1 h
      refine ⟨hp2.trans hp1, ?_⟩
      intro n hn
      rcases ha2 n hn with h2 | ⟨⟨ev', hin, hk⟩, ho, hprov⟩
      · rcases ha1 n h2 with h3 | ⟨hk, ho, hprov⟩
        · exact Or.inl h3
        · exact Or.inr ⟨⟨ev, List.mem_cons_self _ _, hk.symm⟩, ho, hprov⟩
      · exact Or.inr ⟨⟨ev', List.mem_cons_of_mem _ hin, hk⟩, ho, hprov⟩

theorem load_added (env : Env) (m m' : Manager) (h : load env m = some m') :
    m'.puts = m.puts
    ∧ ∀ n, (m'.rgt.Get n).isSome = true →
        (m.rgt.Get n).isSome = true
        ∨ ((∃ resp, (getScalers env m).result = some resp ∧ ∃ ev ∈ resp.Kvs, ev.Key = n)
          ∧ (env.LocalIsWorker n).2.2 = true
          ∧ ∃ providerID m0 m1, (stringsSplitSlash n).get? 2 = some providerID
              ∧ CheckKey env (Path DefaultCloudPrefix providerID) m0 = some (true, m1)) := by
  unfold load at h
  simp only at h
  split at h
  · cases h
    exact ⟨afterCall_puts _ _, fun _ hn => Or.inl hn⟩
  · split at h
    · cases h
    · rename_i resp hr
      obtain ⟨hp, ha⟩ := loadItems_added env _ _ m' h
      refine ⟨hp.trans (afterCall_puts _ _), ?_⟩
      intro n hn
      rcases ha n hn with h1 | ⟨hl, ho, hprov⟩
      · exact Or.inl h1
      · exact Or.inr ⟨⟨resp, hr, hl⟩, ho, hprov⟩

theorem Path_clouds (providerID : String) :
    Path DefaultCloudPrefix providerID = "/clouds/" ++ providerID := by
  unfold Path DefaultCloudPrefix
  rw [String.append_assoc]
  rfl

/-- C13. Load skips rules with a missing provider. For a listed rule key whose
third segment is `providerID`, `load` calls `CheckKey` on `/clouds/<providerID>`,
which returns true exactly when the count-only Get returns no error and a count
of 1; on false the rule is skipped, on true `startScaler` is called. After
`load` a rule name that was not in the registry before is in it only if it is
listed, the local node owns it and `CheckKey` found its provider key; and
`load` adds no Put to the trace. The same holds for the manager `NewManager`
returns, whose registry starts empty. -/
theorem C13_load_skips_missing_provider (env : Env) (m : Manager) :
    (∀ providerID, Path DefaultCloudPrefix providerID = "/clouds/" ++ providerID)
    ∧ (∀ key b m1, CheckKey env key m = some (b, m1) →
        (b = true ↔
          ((DoGet (fun i => env.Get (m.clock + i) key GetOpt.countOnly)).err = none
            ∧ ∃ resp,
                (DoGet (fun i => env.Get (m.clock + i) key GetOpt.countOnly)).result = some resp
                ∧ resp.Count = 1)))
    ∧ (∀ ev providerID, (stringsSplitSlash ev.Key).get? 2 = some providerID →
        (∀ m1, CheckKey env (Path DefaultCloudPrefix providerID) m = some (false, m1) →
          loadItem env ev m = some m1 ∧ m1.rgt = m.rgt ∧ m1.puts = m.puts)
        ∧ (∀ m1, CheckKey env (Path DefaultCloudPrefix providerID) m = some (true, m1) →
          loadItem env ev m = startScaler env ev.Key ev.Value m1))
    ∧ (∀ m', load env m = some m' →
        m'.puts = m.puts
        ∧ ∀ n, (m'.rgt.Get n).isSome = true → (m.rgt.Get n).isSome = false →
            (∃ resp, (getScalers env m).result = some resp ∧ ∃ ev ∈ resp.Kvs, ev.Key = n)
            ∧ (env.LocalIsWorker n).2.2 = true
            ∧ ∃ providerID m0 m1, (stringsSplitSlash n).get? 2 = some providerID
                ∧ CheckKey env (Path DefaultCloudPrefix providerID) m0 = some (true, m1))
    ∧ (∀ zero m', NewManager env zero = some m' →
        m'.puts = []
        ∧ ∀ n, (m'.rgt.Get n).isSome = true →
            (env.LocalIsWorker n).2.2 = true
            ∧ ∃ providerID m0 m1, (stringsSplitSlash n).get? 2 = some providerID
                ∧ CheckKey env (Path DefaultCloudPrefix providerID) m0 = some (true, m1)) := by
  refine ⟨Path_clouds, fun key b m1 h => CheckKey_true_iff env key m m1 b h, ?_, ?_, ?_⟩
  · intro ev providerID hp
    obtain ⟨h1, h2⟩ := loadItem_cases env ev m providerID hp
    exact ⟨fun m1 hc => ⟨h1 m1 hc, CheckKey_rgt env _ _ _ _ hc, CheckKey_puts env _ _ _ _ hc⟩, h2⟩
  · intro m' h
    obtain ⟨hp, ha⟩ := load_added env m m' h
    refine ⟨hp, ?_⟩
    intro n hn hno
    rcases ha n hn with h1 | h1
    · rw [h1] at hno; cases hno
    · exact h1
  · intro zero m' h
    unfold NewManager at h
    split at h
    · cases h
    · rename_i m1 h1
      cases h
      obtain ⟨hp, ha⟩ := load_added env _ m1 h1
      refine ⟨hp, ?_⟩
      intro n hn
      rcases ha n hn with h2 | ⟨_, ho, hprov⟩
      · exact absurd h2 (by simp [Registry.Get])
      · exact ⟨ho, hprov⟩

/-- A run of C13's theorem: the provider key of the sample rule is missing
(the count-only Get counts 0), so `load` skips the rule. -/
theorem C13_load_skips_missing_provider_witness :
    loadItem
        { sampleEnv "A" "A" [sampleKv] none true with
          Get := fun _ _ _ => Outcome.ok ⟨[], 0⟩ }
        sampleKv ⟨⟨∅⟩, false, State.Active, 1, []⟩
      = some ⟨⟨∅⟩, false, State.Active, 2, []⟩
    ∧ (⟨⟨∅⟩, false, State.Active, 2, []⟩ : Manager).rgt
        = (⟨⟨∅⟩, false, State.Active, 1, []⟩ : Manager).rgt
    ∧ (⟨⟨∅⟩, false, State.Active, 2, []⟩ : Manager).puts
        = (⟨⟨∅⟩, false, State.Active, 1, []⟩ : Manager).puts :=
  ((C13_load_skips_missing_provider
      { sampleEnv "A" "A" [sampleKv] none true with
        Get := fun _ _ _ => Outcome.ok ⟨[], 0⟩ }
      ⟨⟨∅⟩, false, State.Active, 1, []⟩).2.2.1 sampleKv "p1" (by decide)).1
    ⟨⟨∅⟩, false, State.Active, 2, []⟩ rfl

/-! ## The registry as a list, and the growth of the trace -/

theorem Registry.Iter_eq_nil (r : Registry) (h : ∀ n, r.Get n = none) : r.Iter = [] := by
  unfold Registry.Iter
  cases he : r.Items.entries with
  | nil => rfl
  | cons e rest =>
    have hmem : e ∈ r.Items.entries := by rw [he]; exact List.mem_cons_self _ _
    have hl : r.Items.lookup e.1 = some e.2 := by
      obtain ⟨k, v⟩ := e
      exact AList.mem_lookup_iff.2 hmem
    have := h e.1
    unfold Registry.Get at this
    rw [this] at hl
    cases hl

theorem putRule_trace (env : Env) (name raw : String) (m : Manager) :
    ∃ errs : List GoError, (putRule env name raw m).2.trace
      = m.trace ++ [Effect.put name raw (putRule env name raw m).1] ++ errs.map Effect.errCh :=
  ⟨_, rfl⟩

theorem stopScaler_trace_mono (env : Env) (name : String) (m m' : Manager)
    (h : stopScaler env name m = some m') (e : Effect) (he : e ∈ m.trace) : e ∈ m'.trace := by
  unfold stopScaler at h
  simp only at h
  split at h
  · cases h; exact he
  · split at h
    · cases h
    · cases h
      simp [Manager.dropWorker, he]

theorem Registry.mem_Iter (r : Registry) (n : String) (w : Worker) (h : r.Get n = some w) :
    (n, w) ∈ r.Iter := by
  unfold Registry.Iter
  unfold Registry.Get at h
  have := AList.mem_lookup_iff.1 h
  exact List.mem_map.2 ⟨⟨n, w⟩, this, rfl⟩

/-! ## Stop and the WaitGroup -/

theorem saveItem_sameControl (env : Env) (errChRoom : Nat) (i : String × Worker)
    (m : Manager) : m.sameControl (saveItem env errChRoom i m).m := by
  unfold saveItem
  split
  · exact Manager.sameControl_refl _
  · simp only
    split
    · split <;> exact ⟨rfl, rfl⟩
    · split
      · split <;> exact ⟨rfl, rfl⟩
      · split <;> split <;> exact ⟨rfl, rfl⟩

theorem saveItem_Get_isSome (env : Env) (errChRoom : Nat) (i : String × Worker) (m : Manager)
    (n : String) :
    ((saveItem env errChRoom i m).m.rgt.Get n).isSome = (m.rgt.Get n).isSome := by
  have key : ∀ it1 : Scaler,
      ((if (m.rgt.Get i.1).isSome then m.setWorker i.1 (Worker.scaler it1)
        else m).rgt.Get n).isSome = (m.rgt.Get n).isSome := by
    intro it1
    split_ifs with h
    · simp only [Manager.setWorker, Registry.Get_Set]
      split_ifs with hn
      · subst hn; simp [h]
      · rfl
    · rfl
  unfold saveItem
  split
  · rfl
  · simp only
    split
    · exact key _
    · split
      · rw [putRule_rgt]; exact key _
      · split
        · exact key _
        · rw [putRule_rgt]; exact key _

theorem saveItems_sameControl (env : Env) (l : List (String × Worker)) (errChRoom blocked : Nat)
    (m : Manager) (saved : Saved) (h : saveItems env l errChRoom blocked m = some saved) :
    m.sameControl saved.m := by
  induction l generalizing errChRoom blocked m with
  | nil => simp only [saveItems] at h; cases h; exact Manager.sameControl_refl _
  | cons i rest ih =>
    simp only [saveItems] at h
    have h0 := saveItem_sameControl env errChRoom i m
    split at h
    · exact Manager.sameControl_trans h0 (ih _ _ _ h)
    · split at h
      · cases h
      · rename_i m1 h1
        exact Manager.sameControl_trans
          (Manager.sameControl_trans h0 (stopScaler_sameControl env _ _ _ h1)) (ih _ _ _ h)

theorem save_sameControl (env : Env) (sync : Sync) (m : Manager) (saved : Saved)
    (h : save env sync m = some saved) : m.sameControl saved.m :=
  saveItems_sameControl env _ _ _ m saved h

/-- The goroutines of `save` do not panic on a snapshot of the registry. -/
theorem saveItems_isSome (env : Env) (l : List (String × Worker)) (errChRoom blocked : Nat)
    (m : Manager) (hnd : (l.map Prod.fst).Nodup)
    (hin : ∀ i ∈ l, (m.rgt.Get i.1).isSome = true) :
    (saveItems env l errChRoom blocked m).isSome = true := by
  induction l generalizing errChRoom blocked m with
  | nil => rfl
  | cons i rest ih =>
    simp only [List.map_cons, List.nodup_cons, List.mem_map, not_exists, not_and] at hnd
    have h1 : ((saveItem env errChRoom i m).m.rgt.Get i.1).isSome = true := by
      rw [saveItem_Get_isSome]
      exact hin i (List.mem_cons_self _ _)
    simp only [saveItems]
    split
    · apply ih _ _ _ hnd.2
      intro j hj
      rw [saveItem_Get_isSome]
      exact hin j (List.mem_cons_of_mem _ hj)
    · obtain ⟨m', hm', hframe⟩ := stopScaler_of_isSome env i.1 _ h1
      simp only [hm']
      apply ih _ _ _ hnd.2
      intro j hj
      have hne : j.1 ≠ i.1 := fun e => hnd.1 j hj e
      rw [hframe _ hne, saveItem_Get_isSome]
      exact hin j (List.mem_cons_of_mem _ hj)

theorem save_isSome (env : Env) (sync : Sync) (m : Manager) :
    (save env sync m).isSome = true := by
  unfold save
  apply saveItems_isSome env _ _ _ _ (Registry.Iter_nodup _)
  intro i hi
  rw [Registry.Iter_mem _ i hi]
  rfl

/-- A registered rule the local node does not own is still registered when the
goroutines of `save` are done. -/
theorem saveItems_keeps_non_owned (env : Env) (l : List (String × Worker))
    (errChRoom blocked : Nat) (m : Manager) (saved : Saved)
    (h : saveItems env l errChRoom blocked m = some saved) (n : String)
    (ho : (env.LocalIsWorker n).2.2 = false) (hn : (m.rgt.Get n).isSome = true) :
    (saved.m.rgt.Get n).isSome = true := by
  induction l generalizing errChRoom blocked m with
  | nil => simp only [saveItems] at h; cases h; exact hn
  | cons i rest ih =>
    simp only [saveItems] at h
    have h0 : ((saveItem env errChRoom i m).m.rgt.Get n).isSome = true := by
      rw [saveItem_Get_isSome]; exact hn
    split at h
    · exact ih _ _ _ h h0
    · split at h
      · cases h
      · rename_i m1 h1
        apply ih _ _ _ h
        by_cases e : i.1 = n
        · rw [e, stopScaler_not_owner env n _ ho] at h1
          cases h1
          exact h0
        · unfold stopScaler at h1
          simp only at h1
          split at h1
          · cases h1; exact h0
          · split at h1
            · cases h1
            · cases h1
              simpa [Manager.dropWorker, Registry.Get_Delete, Ne.symm e] using h0

theorem Stop_of_stopped (env : Env) (sync : Sync) (m : Manager)
    (h : m.state = State.Stopping ∨ m.state = State.Stopped) :
    Stop env sync m = StopResult.returned m := by
  unfold Stop
  rw [if_pos h]

/-- A `Stop` that returns leaves a manager that is not `Active`, and one that
is `Stopped` with the stop channel closed when it was called on an `Active`
manager. -/
theorem Stop_returned (env : Env) (sync : Sync) (m m' : Manager)
    (h : Stop env sync m = StopResult.returned m') :
    m'.state ≠ State.Active
    ∧ (m.state = State.Active → m'.state = State.Stopped ∧ m'.stop = true) := by
  unfold Stop at h
  split at h
  · rename_i hst
    cases h
    refine ⟨?_, fun ha => ?_⟩
    · rcases hst with e | e <;> rw [e] <;> decide
    · rcases hst with e | e <;> rw [e] at ha <;> cases ha
  · simp only at h
    split at h
    · cases h
    · split at h
      · cases h
      · rename_i saved hsave
        have hc := save_sameControl env _ _ _ hsave
        split at h
        · cases h
          exact ⟨by simp, fun _ => ⟨rfl, hc.2⟩⟩
        · cases h

/-- A `Stop` that is blocked was called on an `Active` manager and holds it in
`Stopping`, the stop channel closed. -/
theorem Stop_blocked (env : Env) (sync : Sync) (m m' : Manager)
    (h : Stop env sync m = StopResult.blocked m') :
    m.state = State.Active ∧ m'.state = State.Stopping ∧ m'.stop = true := by
  unfold Stop at h
  split at h
  · cases h
  · rename_i hst
    have ha : m.state = State.Active := by
      cases hs : m.state
      · rfl
      · exact absurd (Or.inl hs) hst
      · exact absurd (Or.inr hs) hst
    simp only at h
    split at h
    · cases h
    · split at h
      · cases h
      · rename_i saved hsave
        have hc := save_sameControl env _ _ _ hsave
        split at h
        · cases h
        · cases h
          exact ⟨ha, hc.1, hc.2⟩

theorem Stop_twice (env : Env) (sync sync' : Sync) (m m' : Manager)
    (h : Stop env sync m = StopResult.returned m') :
    Stop env sync' m' = StopResult.returned m' := by
  apply Stop_of_stopped
  have := (Stop_returned env sync m m' h).1
  cases hs : m'.state
  · exact absurd hs this
  · left; rfl
  · right; rfl

/-- Whatever the collaborators and the synchronisation state, `Stop` on an
`Active` manager with an open stop channel whose registry holds a rule the
local node does not own is blocked for ever, in `Stopping`. -/
theorem Stop_blocked_of_non_owned (env : Env) (sync : Sync) (m : Manager) (n : String)
    (ha : m.state = State.Active) (hs : m.stop = false)
    (ho : (env.LocalIsWorker n).2.2 = false) (hn : (m.rgt.Get n).isSome = true) :
    ∃ m', Stop env sync m = StopResult.blocked m' ∧ m'.state = State.Stopping
      ∧ (m'.rgt.Get n).isSome = true := by
  obtain ⟨saved, hsave⟩ := Option.isSome_iff_exists.1
    (save_isSome env sync { m with state := State.Stopping, stop := true })
  have hkeep : (saved.m.rgt.Get n).isSome = true :=
    saveItems_keeps_non_owned env _ _ _ _ saved hsave n ho hn
  obtain ⟨w, hw⟩ := Option.isSome_iff_exists.1 hkeep
  have hmem := Registry.mem_Iter _ n w hw
  have hpos : waitGroup sync saved ≠ 0 := by
    unfold waitGroup
    have : 0 < saved.m.rgt.Iter.length := List.length_pos_of_mem hmem
    omega
  have hStop : Stop env sync m = StopResult.blocked saved.m := by
    unfold Stop
    rw [if_neg (by rw [ha]; decide)]
    simp only [hs, Bool.false_eq_true, if_false, hsave, hpos]
  exact ⟨saved.m, hStop, (Stop_blocked env sync m _ hStop).2.1, hkeep⟩

/-- The sample manager stopped while its node owns the sample rule, with no
leaked worker and room on `ErrCh`: the rule is Put, the worker stopped, the
entry removed, and `Stop` returns with `state = Stopped`. -/
theorem Stop_returns_when_owner :
    (Stop (sampleEnv "A" "A" [] none true) ⟨0, 1⟩ sampleManager).isReturned = true
    ∧ (Stop (sampleEnv "A" "A" [] none true) ⟨0, 1⟩ sampleManager).manager.map
        (fun m => (m.state, m.rgt.Iter, m.trace))
      = some (State.Stopped, [],
          [Effect.put sampleKey "rule" none,
            Effect.workerStop sampleKey (Worker.scaler sampleScaler.checkpoint)]) := by
  decide

/-- The sample manager stopped while its node owns the sample rule, the Put
failing and `ErrCh` having no room: the goroutine of `save` is blocked in the
send on `ErrCh`, the worker is not stopped, and `Stop` stays blocked in
`Stopping`; with room for one value on `ErrCh` the same call returns. -/
theorem Stop_blocks_when_errCh_is_full :
    (Stop (sampleEnv "A" "A" [] (some GoError.ErrPermissionDenied) true) ⟨0, 0⟩
        sampleManager).isBlocked = true
    ∧ (Stop (sampleEnv "A" "A" [] (some GoError.ErrPermissionDenied) true) ⟨0, 0⟩
        sampleManager).manager.map
        (fun m => (m.state, (m.rgt.Get sampleKey).isSome, m.trace))
      = some (State.Stopping, true, [])
    ∧ (Stop (sampleEnv "A" "A" [] (some GoError.ErrPermissionDenied) true) ⟨0, 1⟩
        sampleManager).isReturned = true := by
  decide

/-- C5, the code at the failing input. The sample manager is `Active`, its
stop channel open, and runs the sample rule, which the cluster assigns to
another node. `Stop` sets `state = Stopping`, closes the stop channel and
saves, the deferred `stopScaler` returns at its ownership guard without
stopping the worker, and `m.wg.Wait()` never returns: `Stop` does not return
and the state stays `Stopping`, never `Stopped`. -/
theorem C5_stop_blocks_in_stopping :
    sampleManager.state = State.Active ∧ sampleManager.stop = false
    ∧ (Stop (sampleEnv "A" "B" [] none true) ⟨0, 1⟩ sampleManager).isReturned = false
    ∧ (Stop (sampleEnv "A" "B" [] none true) ⟨0, 1⟩ sampleManager).isBlocked = true
    ∧ (Stop (sampleEnv "A" "B" [] none true) ⟨0, 1⟩ sampleManager).manager.map
        (fun m => (m.state, m.stop))
      = some (State.Stopping, true) := by
  decide

/-- C12, the code at the failing input. Node `A` loaded the sample rule while
it owned it, which started one worker; the cluster now assigns the rule to
`B`. `Stop` on the manager of `A` Puts the rule at its key, but the deferred
`stopScaler` returns at its ownership guard before `s.Stop()` and
`m.rgt.Delete(name)`: the worker is not stopped, the rule stays in the
registry, and `Stop` stays blocked in `m.wg.Wait()` with `state = Stopping`. -/
theorem C12_stop_leaves_non_owned_worker_running :
    (NewManager (sampleEnv "A" "A" [sampleKv] none true) State.Active).map
      (fun m =>
        ((Stop (sampleEnv "A" "B" [] none true) ⟨0, 1⟩ m).isBlocked,
          (Stop (sampleEnv "A" "B" [] none true) ⟨0, 1⟩ m).manager.map
            (fun m' => (m'.state, (m'.rgt.Get sampleKey).isSome, m'.trace))))
      = some (true, some (State.Stopping, true,
          [Effect.workerRun sampleKey ⟨sampleKey, "rule", ⟨"p1"⟩, ⟨AlertPhase.Idle, 0, 0⟩, none⟩,
            Effect.put sampleKey "rule" none])) := by
  decide

/-- Four owned rules and every Put failing: whatever room `ErrCh` is said to
have, it takes three of the four errors, the goroutine of the fourth is
blocked in its send, one worker is left running and registered, and `Stop`
stays blocked in `Stopping`. -/
theorem Stop_blocks_on_fourth_failing_put :
    (Stop (sampleEnv "A" "A" [] (some GoError.ErrPermissionDenied) true) ⟨0, 100⟩
        fourRulesManager).isBlocked = true
    ∧ (Stop (sampleEnv "A" "A" [] (some GoError.ErrPermissionDenied) true) ⟨0, 100⟩
        fourRulesManager).manager.map
        (fun m => (m.state, m.rgt.Iter.length,
          (m.trace.filter Effect.isPut).length,
          (m.trace.filter Effect.isWorkerStop).length))
      = some (State.Stopping, 1, 3, 3) := by
  decide

end Faythe
